import Mathlib

/-
  Verification of the minja template engine specification.

  The repository's `src/` tree contains the chat-template layer
  (`include/minja/chat-template.hpp`), tests and examples, but not the core
  engine header `minja.hpp` itself (only its tests and callers are present).
  Definitions for the core engine below are therefore modelled from the
  specification (spec.md sections 3, 4.1-4.5, 6, 7), while the
  chat-template layer definitions are translated directly from
  `src/include/minja/chat-template.hpp`.
-/

set_option maxRecDepth 4000

namespace Spec2Proof

/-! ### JSON-like values

Modelled from the spec: the `Value` data model of section 3 restricted to its
JSON fragment (`Null | Boolean | Integer | Float | String | Array | Object`
with object keys being strings and insertion order preserved); floats are
modelled as exact decimals `m / 10^e` since the engine's float formatting is
"trimmed" decimal notation. -/

mutual

inductive JVal where
  | jnull : JVal
  | jbool (b : Bool) : JVal
  | jint (n : Int) : JVal
  | jdec (m : Int) (e : Nat) : JVal
  | jstr (s : String) : JVal
  | jarr (xs : JArr) : JVal
  | jobj (kvs : JObj) : JVal

inductive JArr where
  | nil : JArr
  | cons (hd : JVal) (tl : JArr) : JArr

inductive JObj where
  | nil : JObj
  | cons (k : String) (v : JVal) (tl : JObj) : JObj

end

mutual

def JVal.beq : JVal → JVal → Bool
  | .jnull, .jnull => true
  | .jbool a, .jbool b => a == b
  | .jint a, .jint b => a == b
  | .jdec m e, .jdec m' e' => m == m' && e == e'
  | .jstr a, .jstr b => a == b
  | .jarr a, .jarr b => JArr.beq a b
  | .jobj a, .jobj b => JObj.beq a b
  | _, _ => false

def JArr.beq : JArr → JArr → Bool
  | .nil, .nil => true
  | .cons a as, .cons b bs => JVal.beq a b && JArr.beq as bs
  | _, _ => false

def JObj.beq : JObj → JObj → Bool
  | .nil, .nil => true
  | .cons k v tl, .cons k' v' tl' => k == k' && JVal.beq v v' && JObj.beq tl tl'
  | _, _ => false

end

mutual

theorem JVal.jvalBeqIffEq : ∀ a b : JVal, JVal.beq a b = true ↔ a = b
  | .jnull, b => by cases b <;> simp [JVal.beq]
  | .jbool x, b => by cases b <;> simp [JVal.beq]
  | .jint x, b => by cases b <;> simp [JVal.beq]
  | .jdec m e, b => by cases b <;> simp [JVal.beq]
  | .jstr s, b => by cases b <;> simp [JVal.beq]
  | .jarr xs, b => by
      cases b <;> simp [JVal.beq]
      exact JArr.jarrBeqIffEq xs _
  | .jobj kvs, b => by
      cases b <;> simp [JVal.beq]
      exact JObj.jobjBeqIffEq kvs _

theorem JArr.jarrBeqIffEq : ∀ a b : JArr, JArr.beq a b = true ↔ a = b
  | .nil, b => by cases b <;> simp [JArr.beq]
  | .cons x xs, b => by
      cases b <;> simp [JArr.beq]
      rw [JVal.jvalBeqIffEq, JArr.jarrBeqIffEq]

theorem JObj.jobjBeqIffEq : ∀ a b : JObj, JObj.beq a b = true ↔ a = b
  | .nil, b => by cases b <;> simp [JObj.beq]
  | .cons k v tl, b => by
      cases b <;> simp [JObj.beq]
      rw [JVal.jvalBeqIffEq, JObj.jobjBeqIffEq]
      tauto

end

instance : DecidableEq JVal := fun a b =>
  decidable_of_iff (JVal.beq a b = true) (JVal.jvalBeqIffEq a b)

instance : DecidableEq JArr := fun a b =>
  decidable_of_iff (JArr.beq a b = true) (JArr.jarrBeqIffEq a b)

instance : DecidableEq JObj := fun a b =>
  decidable_of_iff (JObj.beq a b = true) (JObj.jobjBeqIffEq a b)

/-! ### Decimal digit printing -/

def digitChar (d : Nat) : Char := Char.ofNat (48 + d)

def natCharsAux : Nat → Nat → List Char
  | 0, _ => []
  | f + 1, n => if n = 0 then [] else natCharsAux f (n / 10) ++ [digitChar (n % 10)]

/-- Big-endian decimal digit characters of a natural number. -/
def natChars (n : Nat) : List Char :=
  if n = 0 then ['0'] else natCharsAux (n + 1) n

theorem natCharsAux_eq_digits : ∀ f n, n ≤ f →
    natCharsAux f n = ((Nat.digits 10 n).map digitChar).reverse := by
  intro f
  induction f with
  | zero =>
    intro n hn
    interval_cases n
    simp [natCharsAux]
  | succ f ih =>
    intro n hn
    by_cases h0 : n = 0
    · subst h0
      simp [natCharsAux]
    · have hpos : 0 < n := Nat.pos_of_ne_zero h0
      have hdiv : n / 10 ≤ f := by
        have := Nat.div_lt_self hpos (by norm_num : (1 : Nat) < 10)
        omega
      rw [show natCharsAux (f + 1) n
          = natCharsAux f (n / 10) ++ [digitChar (n % 10)] from by
        simp [natCharsAux, h0]]
      rw [ih _ hdiv]
      rw [Nat.digits_def' (by norm_num : (1 : Nat) < 10) hpos]
      simp

theorem natChars_eq_digits (n : Nat) :
    natChars n = if n = 0 then ['0'] else ((Nat.digits 10 n).map digitChar).reverse := by
  unfold natChars
  by_cases h0 : n = 0
  · simp [h0]
  · rw [if_neg h0, if_neg h0, natCharsAux_eq_digits (n + 1) n (by omega)]

def intChars (n : Int) : List Char :=
  if n < 0 then '-' :: natChars n.natAbs else natChars n.natAbs

/-- Exactly `e` decimal digits of `r` (most significant first), zero padded. -/
def fracChars : Nat → Nat → List Char
  | 0, _ => []
  | e + 1, r => fracChars e (r / 10) ++ [digitChar (r % 10)]

/-- Modelled from the spec: "trimmed float formatting" shared by both
stringification modes; a decimal `m / 10^e` prints its integral part, a dot,
then `e` fraction digits. -/
def decChars (m : Int) (e : Nat) : List Char :=
  (if m < 0 then ['-'] else []) ++ natChars (m.natAbs / 10 ^ e)
    ++ '.' :: fracChars e (m.natAbs % 10 ^ e)

/-! ### The two stringification modes (spec section 4.1)

Modelled from the spec: "display" is Python-`str`-like (capitalized
`True/False/None`, bare top-level strings, single-quoted nested strings),
"to-JSON" uses quoted strings and lowercase `true/false/null`, recursively. -/

def sq : Char := Char.ofNat 39

def escJChar (c : Char) : List Char :=
  if c = '"' then ['\\', '"']
  else if c = '\\' then ['\\', '\\']
  else if c = Char.ofNat 10 then ['\\', 'n']
  else if c = Char.ofNat 9 then ['\\', 't']
  else if c = Char.ofNat 13 then ['\\', 'r']
  else [c]

def escJ (cs : List Char) : List Char := (cs.map escJChar).flatten

def escRChar (c : Char) : List Char :=
  if c = sq then ['\\', sq]
  else if c = '\\' then ['\\', '\\']
  else if c = Char.ofNat 10 then ['\\', 'n']
  else if c = Char.ofNat 9 then ['\\', 't']
  else if c = Char.ofNat 13 then ['\\', 'r']
  else [c]

def escR (cs : List Char) : List Char := (cs.map escRChar).flatten

mutual

/-- Modelled from the spec: the "to-JSON" stringification mode (section 4.1),
as a character list. -/
def jsonChars : JVal → List Char
  | .jnull => ['n', 'u', 'l', 'l']
  | .jbool true => ['t', 'r', 'u', 'e']
  | .jbool false => ['f', 'a', 'l', 's', 'e']
  | .jint n => intChars n
  | .jdec m e => decChars m e
  | .jstr s => '"' :: (escJ s.data ++ ['"'])
  | .jarr xs => '[' :: (jsonCharsArr xs ++ [']'])
  | .jobj kvs => '{' :: (jsonCharsObj kvs ++ ['}'])

def jsonCharsArr : JArr → List Char
  | .nil => []
  | .cons v tl =>
    jsonChars v ++ (match tl with
      | .nil => []
      | .cons _ _ => ',' :: ' ' :: jsonCharsArr tl)

def jsonCharsObj : JObj → List Char
  | .nil => []
  | .cons k v tl =>
    ('"' :: (escJ k.data ++ ['"'])) ++ ':' :: ' ' :: jsonChars v
      ++ (match tl with
        | .nil => []
        | .cons _ _ _ => ',' :: ' ' :: jsonCharsObj tl)

end

mutual

/-- Modelled from the spec: the nested ("repr") form of the "display"
stringification mode (section 4.1): Python-style, with single-quoted
strings and capitalized `True/False/None`. -/
def reprChars : JVal → List Char
  | .jnull => ['N', 'o', 'n', 'e']
  | .jbool true => ['T', 'r', 'u', 'e']
  | .jbool false => ['F', 'a', 'l', 's', 'e']
  | .jint n => intChars n
  | .jdec m e => decChars m e
  | .jstr s => sq :: (escR s.data ++ [sq])
  | .jarr xs => '[' :: (reprCharsArr xs ++ [']'])
  | .jobj kvs => '{' :: (reprCharsObj kvs ++ ['}'])

def reprCharsArr : JArr → List Char
  | .nil => []
  | .cons v tl =>
    reprChars v ++ (match tl with
      | .nil => []
      | .cons _ _ => ',' :: ' ' :: reprCharsArr tl)

def reprCharsObj : JObj → List Char
  | .nil => []
  | .cons k v tl =>
    (sq :: (escR k.data ++ [sq])) ++ ':' :: ' ' :: reprChars v
      ++ (match tl with
        | .nil => []
        | .cons _ _ _ => ',' :: ' ' :: reprCharsObj tl)

end

/-- Modelled from the spec: the "to-JSON" stringification (section 4.1). -/
def tojsonJ (v : JVal) : String := ⟨jsonChars v⟩

/-- Modelled from the spec: the "display" stringification (section 4.1);
a top-level string displays as its raw characters (Python `str`). -/
def displayJ : JVal → String
  | .jstr s => s
  | v => ⟨reprChars v⟩

mutual

/-- Values on which the display and to-JSON stringifications differ:
booleans, null, strings (quoting differs), and containers containing any
of these (every non-empty object, since keys are strings). -/
def divergentJ : JVal → Bool
  | .jnull => true
  | .jbool _ => true
  | .jstr _ => true
  | .jint _ => false
  | .jdec _ _ => false
  | .jarr xs => divergentArr xs
  | .jobj kvs => match kvs with
    | .nil => false
    | .cons _ _ _ => true

def divergentArr : JArr → Bool
  | .nil => false
  | .cons v tl => divergentJ v || divergentArr tl

end


/-! ### Where the two stringification modes differ -/

/-- The two character lists differ at some position that lies within both. -/
def diffEarly : List Char → List Char → Bool
  | a :: as, b :: bs => a != b || diffEarly as bs
  | _, _ => false

theorem diffEarly_ne : ∀ {a b : List Char}, diffEarly a b = true → a ≠ b
  | a :: as, b :: bs, h => by
    simp only [diffEarly, Bool.or_eq_true, bne_iff_ne, ne_eq] at h
    rcases h with h | h
    · simp [h]
    · have := diffEarly_ne h
      simp [this]

theorem diffEarly_cons_ne {a b : Char} {as bs : List Char} (h : a ≠ b) :
    diffEarly (a :: as) (b :: bs) = true := by
  simp [diffEarly, h]

theorem diffEarly_cons_same {c : Char} {as bs : List Char}
    (h : diffEarly as bs = true) : diffEarly (c :: as) (c :: bs) = true := by
  simp [diffEarly, h]

theorem diffEarly_append : ∀ {a b : List Char}, diffEarly a b = true →
    ∀ (u v : List Char), diffEarly (a ++ u) (b ++ v) = true
  | a :: as, b :: bs, h, u, v => by
    simp only [diffEarly, Bool.or_eq_true] at h
    rcases h with h | h
    · simp [List.cons_append, diffEarly, h]
    · simpa [List.cons_append, diffEarly] using Or.inr (diffEarly_append h u v)

theorem diffEarly_prefix (p : List Char) {u v : List Char}
    (h : diffEarly u v = true) : diffEarly (p ++ u) (p ++ v) = true := by
  induction p with
  | nil => simpa using h
  | cons c cs ih => simpa [diffEarly] using ih

mutual

theorem reprJson_spec : ∀ v : JVal,
    (divergentJ v = false → reprChars v = jsonChars v) ∧
    (divergentJ v = true → diffEarly (reprChars v) (jsonChars v) = true)
  | .jnull => ⟨by simp [divergentJ], fun _ => by decide⟩
  | .jbool b => ⟨by simp [divergentJ], fun _ => by cases b <;> decide⟩
  | .jint n => ⟨fun _ => by simp [reprChars, jsonChars], by simp [divergentJ]⟩
  | .jdec m e => ⟨fun _ => by simp [reprChars, jsonChars], by simp [divergentJ]⟩
  | .jstr s => by
      refine ⟨by simp [divergentJ], fun _ => ?_⟩
      simp only [reprChars, jsonChars]
      exact diffEarly_cons_ne (by decide)
  | .jarr xs => by
      have H := reprJson_specArr xs
      constructor
      · intro h
        simp only [divergentJ] at h
        simp [reprChars, jsonChars, H.1 h]
      · intro h
        simp only [divergentJ] at h
        simp only [reprChars, jsonChars]
        exact diffEarly_cons_same (diffEarly_append (H.2 h) _ _)
  | .jobj kvs => by
      constructor
      · intro h
        cases kvs with
        | nil => rfl
        | cons k v tl => simp [divergentJ] at h
      · intro _
        cases kvs with
        | nil => simp [divergentJ] at *
        | cons k v tl =>
          simp only [reprChars, jsonChars, reprCharsObj, jsonCharsObj,
            List.cons_append, List.append_assoc]
          exact diffEarly_cons_same (diffEarly_cons_ne (by decide))

theorem reprJson_specArr : ∀ xs : JArr,
    (divergentArr xs = false → reprCharsArr xs = jsonCharsArr xs) ∧
    (divergentArr xs = true → diffEarly (reprCharsArr xs) (jsonCharsArr xs) = true)
  | .nil => ⟨fun _ => rfl, by simp [divergentArr]⟩
  | .cons v tl => by
      have Hv := reprJson_spec v
      have Htl := reprJson_specArr tl
      constructor
      · intro h
        simp only [divergentArr, Bool.or_eq_false_iff] at h
        cases tl with
        | nil => simp [reprCharsArr, jsonCharsArr, Hv.1 h.1]
        | cons w ts =>
          have h2 := Htl.1 h.2
          simp only [reprCharsArr, jsonCharsArr] at h2 ⊢
          rw [Hv.1 h.1, h2]
      · intro h
        simp only [divergentArr, Bool.or_eq_true] at h
        by_cases hv : divergentJ v = true
        · simp only [reprCharsArr, jsonCharsArr]
          exact diffEarly_append (Hv.2 hv) _ _
        · have hv0 : divergentJ v = false := by simpa using hv
          have h2 : divergentArr tl = true := by tauto
          cases tl with
          | nil => simp [divergentArr] at h2
          | cons w ts =>
            simp only [reprCharsArr, jsonCharsArr, Hv.1 hv0]
            have := diffEarly_prefix (jsonChars v ++ [',', ' ']) (Htl.2 h2)
            simpa [List.append_assoc] using this

end

theorem escJ_length_ge (cs : List Char) : cs.length ≤ (escJ cs).length := by
  induction cs with
  | nil => simp [escJ]
  | cons c tl ih =>
    have hc : 1 ≤ (escJChar c).length := by
      unfold escJChar
      split <;> try simp
      split <;> try simp
      split <;> try simp
      split <;> try simp
      split <;> simp
    simp only [escJ, List.map_cons, List.flatten_cons, List.length_append,
      List.length_cons]
    have : (escJ tl).length = ((tl.map escJChar).flatten).length := rfl
    omega

theorem displayJ_eq_reprChars {v : JVal} (hv : ∀ s, v ≠ JVal.jstr s) :
    displayJ v = ⟨reprChars v⟩ := by
  cases v
  case jstr s => exact absurd rfl (hv s)
  all_goals rfl

theorem displayJ_eq_tojsonJ_iff (v : JVal) :
    displayJ v = tojsonJ v ↔ divergentJ v = false := by
  have key : ∀ w : JVal, (∀ s, w ≠ JVal.jstr s) → divergentJ w = true →
      displayJ w = tojsonJ w → False := by
    intro w hw hdivw hh
    rw [displayJ_eq_reprChars hw] at hh
    have hdata : reprChars w = jsonChars w := by injection hh
    exact diffEarly_ne ((reprJson_spec w).2 hdivw) hdata
  constructor
  · intro h
    by_contra hdiv
    have hdiv' : divergentJ v = true := by simpa using hdiv
    cases hstr : v with
    | jstr s =>
      subst hstr
      have hlen : (displayJ (JVal.jstr s)).length = (tojsonJ (JVal.jstr s)).length := by
        rw [h]
      have h1 : (displayJ (JVal.jstr s)).length = s.data.length := rfl
      have h2 : (tojsonJ (JVal.jstr s)).length = (escJ s.data).length + 2 := by
        show (jsonChars (JVal.jstr s)).length = _
        simp [jsonChars]
      have := escJ_length_ge s.data
      omega
    | jint n => subst hstr; simp [divergentJ] at hdiv'
    | jdec m e => subst hstr; simp [divergentJ] at hdiv'
    | _ =>
      subst hstr
      exact key _ (by intro s; simp) hdiv' h
  · intro h
    have hstr : ∀ s, v ≠ JVal.jstr s := by
      intro s hs
      subst hs
      simp [divergentJ] at h
    rw [displayJ_eq_reprChars hstr]
    show _ = String.mk (jsonChars v)
    rw [(reprJson_spec v).1 h]


/-! ### A JSON decoder (spec sections 4.5 and 8)

Modelled from the spec: the generic JSON representation is "assumed as a
given capability"; this decoder fixes the meaning of "JSON-decodable" for
the round-trip property of section 8. -/

def isWsC (c : Char) : Bool :=
  c == ' ' || c == Char.ofNat 10 || c == Char.ofNat 9 || c == Char.ofNat 13

def skipWs : List Char → List Char
  | [] => []
  | c :: cs => if isWsC c then skipWs cs else c :: cs

def isDigitC (c : Char) : Bool := 48 ≤ c.toNat && c.toNat ≤ 57

def unescC (c : Char) : Option Char :=
  if c = '"' then some '"'
  else if c = '\\' then some '\\'
  else if c = 'n' then some (Char.ofNat 10)
  else if c = 't' then some (Char.ofNat 9)
  else if c = 'r' then some (Char.ofNat 13)
  else none

def parseStringBody : List Char → Option (List Char × List Char)
  | [] => none
  | c :: cs =>
    if c = '"' then some ([], cs)
    else if c = '\\' then
      match cs with
      | [] => none
      | e :: cs2 =>
        (unescC e).bind fun d =>
          (parseStringBody cs2).map fun p => (d :: p.1, p.2)
    else (parseStringBody cs).map fun p => (c :: p.1, p.2)

def readDigits : List Char → Nat → Nat × List Char
  | [], acc => (acc, [])
  | c :: cs, acc =>
    if isDigitC c then readDigits cs (acc * 10 + (c.toNat - 48)) else (acc, c :: cs)

/-- Reads fraction digits, returning value, digit count and the rest. -/
def readFrac : List Char → Nat → Nat → Nat × Nat × List Char
  | [], acc, k => (acc, k, [])
  | c :: cs, acc, k =>
    if isDigitC c then readFrac cs (acc * 10 + (c.toNat - 48)) (k + 1)
    else (acc, k, c :: cs)

def mkSign (neg : Bool) (n : Nat) : Int := if neg then -(n : Int) else (n : Int)

def parseNumTail (neg : Bool) (n : Nat) : List Char → Option (JVal × List Char)
  | '.' :: d :: cs3 =>
    if isDigitC d then
      match readFrac (d :: cs3) 0 0 with
      | (f, k, cs4) => some (.jdec (mkSign neg (n * 10 ^ k + f)) k, cs4)
    else none
  | ['.'] => none
  | cs2 => some (.jint (mkSign neg n), cs2)

def parseNumAfterSign (neg : Bool) : List Char → Option (JVal × List Char)
  | [] => none
  | c :: cs =>
    if isDigitC c then
      match readDigits (c :: cs) 0 with
      | (n, cs2) => parseNumTail neg n cs2
    else none

def parseNumber : List Char → Option (JVal × List Char)
  | '-' :: cs1 => parseNumAfterSign true cs1
  | cs => parseNumAfterSign false cs

mutual

def parseValue : Nat → List Char → Option (JVal × List Char)
  | 0, _ => none
  | f + 1, cs0 =>
    match skipWs cs0 with
    | [] => none
    | c :: r =>
      if c = 'n' then
        match r with
        | 'u' :: 'l' :: 'l' :: r2 => some (.jnull, r2)
        | _ => none
      else if c = 't' then
        match r with
        | 'r' :: 'u' :: 'e' :: r2 => some (.jbool true, r2)
        | _ => none
      else if c = 'f' then
        match r with
        | 'a' :: 'l' :: 's' :: 'e' :: r2 => some (.jbool false, r2)
        | _ => none
      else if c = '"' then
        (parseStringBody r).map fun p => (.jstr ⟨p.1⟩, p.2)
      else if c = '[' then parseArrBody f (skipWs r)
      else if c = '{' then parseObjBody f (skipWs r)
      else parseNumber (c :: r)

def parseArrBody : Nat → List Char → Option (JVal × List Char)
  | _, ']' :: r2 => some (.jarr .nil, r2)
  | f, r2 => (parseItems f r2).map fun q => (.jarr q.1, q.2)

def parseObjBody : Nat → List Char → Option (JVal × List Char)
  | _, '}' :: r2 => some (.jobj .nil, r2)
  | f, r2 => (parseMembers f r2).map fun q => (.jobj q.1, q.2)

def parseItems : Nat → List Char → Option (JArr × List Char)
  | 0, _ => none
  | f + 1, cs =>
    (parseValue f cs).bind fun p =>
      match skipWs p.2 with
      | ',' :: r2 => (parseItems f r2).map fun q => (.cons p.1 q.1, q.2)
      | ']' :: r2 => some (.cons p.1 .nil, r2)
      | _ => none

def parseMembers : Nat → List Char → Option (JObj × List Char)
  | 0, _ => none
  | f + 1, cs =>
    match skipWs cs with
    | '"' :: r =>
      (parseStringBody r).bind fun kp =>
        match skipWs kp.2 with
        | ':' :: r2 =>
          (parseValue f r2).bind fun vp =>
            match skipWs vp.2 with
            | ',' :: r3 => (parseMembers f r3).map fun q => (.cons ⟨kp.1⟩ vp.1 q.1, q.2)
            | '}' :: r3 => some (.cons ⟨kp.1⟩ vp.1 .nil, r3)
            | _ => none
        | _ => none
    | _ => none

end

/-- Modelled from the spec: decoding a JSON text to a `JVal`. -/
def decodeJ (s : String) : Option JVal :=
  (parseValue (s.data.length + 1) s.data).bind fun p =>
    if skipWs p.2 = [] then some p.1 else none


/-! ### Round-trip: digit printing vs digit reading -/

theorem digitChar_toNat {d : Nat} (h : d < 10) : (digitChar d).toNat = 48 + d := by
  interval_cases d <;> decide

theorem isDigitC_digitChar {d : Nat} (h : d < 10) : isDigitC (digitChar d) = true := by
  interval_cases d <;> decide

theorem natChars_ne_nil (n : Nat) : natChars n ≠ [] := by
  rw [natChars_eq_digits]
  split
  · simp
  · simp [Nat.digits_ne_nil_iff_ne_zero, *]

theorem natChars_all_digits (n : Nat) : ∀ c ∈ natChars n, isDigitC c = true := by
  rw [natChars_eq_digits]
  split
  · intro c hc
    simp at hc
    subst hc
    decide
  · intro c hc
    simp at hc
    obtain ⟨d, hd, rfl⟩ := hc
    exact isDigitC_digitChar (Nat.digits_lt_base (by norm_num) hd)

theorem fracChars_all_digits (e r : Nat) : ∀ c ∈ fracChars e r, isDigitC c = true := by
  induction e generalizing r with
  | zero => simp [fracChars]
  | succ e ih =>
    intro c hc
    simp only [fracChars, List.mem_append, List.mem_singleton] at hc
    rcases hc with hc | rfl
    · exact ih _ c hc
    · exact isDigitC_digitChar (Nat.mod_lt _ (by norm_num))

theorem readDigits_stop {rest : List Char}
    (h : rest = [] ∨ ∃ c cs, rest = c :: cs ∧ isDigitC c = false) (acc : Nat) :
    readDigits rest acc = (acc, rest) := by
  rcases h with rfl | ⟨c, cs, rfl, hc⟩
  · rfl
  · simp [readDigits, hc]

theorem readDigits_digits (ds : List Nat) (h : ∀ d ∈ ds, d < 10) (rest : List Char)
    (acc : Nat) :
    readDigits ((ds.map digitChar).reverse ++ rest) acc
      = readDigits rest (acc * 10 ^ ds.length + Nat.ofDigits 10 ds) := by
  induction ds generalizing rest acc with
  | nil => simp [Nat.ofDigits]
  | cons d tl ih =>
    have hd : d < 10 := h d (by simp)
    have htl : ∀ x ∈ tl, x < 10 := fun x hx => h x (by simp [hx])
    simp only [List.map_cons, List.reverse_cons, List.append_assoc, List.cons_append,
      List.nil_append]
    rw [ih htl]
    simp only [readDigits, isDigitC_digitChar hd, if_pos]
    congr 1
    rw [digitChar_toNat hd, Nat.ofDigits_cons]
    have h48 : 48 + d - 48 = d := by omega
    rw [h48]
    have hpow : (10 : Nat) ^ (d :: tl).length = 10 ^ tl.length * 10 := by
      simp [List.length_cons]
      ring
    rw [hpow]
    ring

theorem readDigits_natChars (n : Nat) (rest : List Char) (acc : Nat) :
    readDigits (natChars n ++ rest) acc
      = readDigits rest (acc * 10 ^ (natChars n).length + n) := by
  by_cases h0 : n = 0
  · subst h0
    rw [show natChars 0 = ['0'] from rfl]
    simp [readDigits, isDigitC]
  · have hlt : ∀ d ∈ Nat.digits 10 n, d < 10 :=
      fun d hd => Nat.digits_lt_base (by norm_num) hd
    rw [natChars_eq_digits, if_neg h0]
    rw [readDigits_digits _ hlt]
    rw [Nat.ofDigits_digits]
    simp

theorem readFrac_stop {rest : List Char}
    (h : rest = [] ∨ ∃ c cs, rest = c :: cs ∧ isDigitC c = false) (acc k : Nat) :
    readFrac rest acc k = (acc, k, rest) := by
  rcases h with rfl | ⟨c, cs, rfl, hc⟩
  · rfl
  · simp [readFrac, hc]

theorem readFrac_fracChars (e : Nat) : ∀ r, r < 10 ^ e → ∀ (rest : List Char) (acc k : Nat),
    readFrac (fracChars e r ++ rest) acc k
      = readFrac rest (acc * 10 ^ e + r) (k + e) := by
  induction e with
  | zero =>
    intro r hr rest acc k
    interval_cases r
    simp [fracChars]
  | succ e ih =>
    intro r hr rest acc k
    have hrdiv : r / 10 < 10 ^ e := by
      rw [Nat.div_lt_iff_lt_mul (by norm_num)]
      calc r < 10 ^ (e + 1) := hr
        _ = 10 ^ e * 10 := by ring
    simp only [fracChars, List.append_assoc, List.singleton_append]
    rw [ih (r / 10) hrdiv]
    have hmod : r % 10 < 10 := Nat.mod_lt _ (by norm_num)
    simp only [readFrac, isDigitC_digitChar hmod, if_pos]
    rw [digitChar_toNat hmod]
    have harith : (acc * 10 ^ e + r / 10) * 10 + (48 + r % 10 - 48)
        = acc * 10 ^ (e + 1) + r := by
      have := Nat.div_add_mod r 10
      ring_nf
      omega
    rw [harith]
    have hk : k + e + 1 = k + (e + 1) := by omega
    rw [hk]


/-! ### Character class facts -/

theorem digit_facts {c : Char} (h : isDigitC c = true) :
    isWsC c = false ∧ c ≠ '-' ∧ c ≠ '.' ∧ c ≠ ']' ∧ c ≠ ',' ∧ c ≠ '}' ∧ c ≠ '"' := by
  refine ⟨?_, ?_, ?_, ?_, ?_, ?_, ?_⟩
  · by_contra hw
    simp only [Bool.not_eq_false] at hw
    simp only [isWsC, Bool.or_eq_true, beq_iff_eq] at hw
    rcases hw with ((rfl | rfl) | rfl) | rfl <;> exact absurd h (by decide)
  all_goals intro heq
  all_goals subst heq
  all_goals exact absurd h (by decide)

theorem skipWs_cons_of_not {c : Char} (h : isWsC c = false) (l : List Char) :
    skipWs (c :: l) = c :: l := by
  simp [skipWs, h]

/-! ### Number parsing round-trip -/

theorem parseNumTail_stop (neg : Bool) (n : Nat) {rest : List Char}
    (h : rest = [] ∨ ∃ c cs, rest = c :: cs ∧ c ≠ '.') :
    parseNumTail neg n rest = some (.jint (mkSign neg n), rest) := by
  rcases h with rfl | ⟨c, cs, rfl, hc⟩
  · rfl
  · simp [parseNumTail, hc]

theorem readDigits_natChars_stop (n : Nat) {rest : List Char}
    (h : rest = [] ∨ ∃ c cs, rest = c :: cs ∧ isDigitC c = false) :
    readDigits (natChars n ++ rest) 0 = (n, rest) := by
  rw [readDigits_natChars, readDigits_stop h]
  simp

theorem parseNumAfterSign_natChars (neg : Bool) (n : Nat) {rest : List Char}
    (hd : rest = [] ∨ ∃ c cs, rest = c :: cs ∧ isDigitC c = false)
    (hdot : rest = [] ∨ ∃ c cs, rest = c :: cs ∧ c ≠ '.') :
    parseNumAfterSign neg (natChars n ++ rest) = some (.jint (mkSign neg n), rest) := by
  obtain ⟨c0, cs0, hnat, hc0⟩ : ∃ c0 cs0, natChars n = c0 :: cs0 ∧ isDigitC c0 = true := by
    cases hh : natChars n with
    | nil => exact absurd hh (natChars_ne_nil _)
    | cons a l => exact ⟨a, l, rfl, natChars_all_digits _ a (by rw [hh]; simp)⟩
  have hsplit : natChars n ++ rest = c0 :: (cs0 ++ rest) := by rw [hnat]; rfl
  rw [hsplit]
  simp only [parseNumAfterSign, hc0, if_pos]
  rw [← hsplit, readDigits_natChars_stop n hd]
  exact parseNumTail_stop neg n hdot

theorem parseNumber_intChars (n : Int) {rest : List Char}
    (hd : rest = [] ∨ ∃ c cs, rest = c :: cs ∧ isDigitC c = false)
    (hdot : rest = [] ∨ ∃ c cs, rest = c :: cs ∧ c ≠ '.') :
    parseNumber (intChars n ++ rest) = some (.jint n, rest) := by
  obtain ⟨c0, cs0, hnat, hc0⟩ : ∃ c0 cs0, natChars n.natAbs = c0 :: cs0 ∧ isDigitC c0 = true := by
    cases hh : natChars n.natAbs with
    | nil => exact absurd hh (natChars_ne_nil _)
    | cons a l => exact ⟨a, l, rfl, natChars_all_digits _ a (by rw [hh]; simp)⟩
  have hfacts := digit_facts hc0
  unfold intChars
  split
  case isTrue hneg =>
    show parseNumber ('-' :: (natChars n.natAbs ++ rest)) = _
    rw [show parseNumber ('-' :: (natChars n.natAbs ++ rest))
        = parseNumAfterSign true (natChars n.natAbs ++ rest) from rfl]
    rw [parseNumAfterSign_natChars true n.natAbs hd hdot]
    have : mkSign true n.natAbs = n := by
      simp only [mkSign, if_pos]
      omega
    rw [this]
  case isFalse hpos =>
    have hsplit : natChars n.natAbs ++ rest = c0 :: (cs0 ++ rest) := by rw [hnat]; rfl
    rw [hsplit]
    have hstep : parseNumber (c0 :: (cs0 ++ rest))
        = parseNumAfterSign false (c0 :: (cs0 ++ rest)) := by
      simp [parseNumber, hfacts.2.1]
    rw [hstep, ← hsplit]
    rw [parseNumAfterSign_natChars false n.natAbs hd hdot]
    have : mkSign false n.natAbs = n := by
      simp only [mkSign, if_neg (Bool.false_ne_true)]
      omega
    rw [this]

theorem fracChars_length (e r : Nat) : (fracChars e r).length = e := by
  induction e generalizing r with
  | zero => rfl
  | succ e ih => simp [fracChars, ih]

theorem parseNumber_decChars (m : Int) (e : Nat) (he : 1 ≤ e) {rest : List Char}
    (hd : rest = [] ∨ ∃ c cs, rest = c :: cs ∧ isDigitC c = false) :
    parseNumber (decChars m e ++ rest) = some (.jdec m e, rest) := by
  set q := m.natAbs / 10 ^ e with hq
  set r := m.natAbs % 10 ^ e with hr
  obtain ⟨d0, ds0, hfrac, hd0⟩ : ∃ d0 ds0, fracChars e r = d0 :: ds0 ∧ isDigitC d0 = true := by
    cases hh : fracChars e r with
    | nil =>
      have := fracChars_length e r
      rw [hh] at this
      simp at this
      omega
    | cons a l => exact ⟨a, l, rfl, fracChars_all_digits _ _ a (by rw [hh]; simp)⟩
  have hrlt : r < 10 ^ e := Nat.mod_lt _ (Nat.pos_pow_of_pos e (by norm_num))
  have hreadfrac : readFrac (fracChars e r ++ rest) 0 0 = (r, e, rest) := by
    rw [readFrac_fracChars e r hrlt, readFrac_stop hd]
    simp
  have htail : parseNumTail (decide (m < 0)) q ('.' :: (fracChars e r ++ rest))
      = some (.jdec m e, rest) := by
    rw [hfrac]
    show parseNumTail _ q ('.' :: d0 :: (ds0 ++ rest)) = _
    simp only [parseNumTail, hd0, if_pos]
    rw [show d0 :: (ds0 ++ rest) = fracChars e r ++ rest from by rw [hfrac]; rfl]
    rw [hreadfrac]
    have hsign : mkSign (decide (m < 0)) (q * 10 ^ e + r) = m := by
      have hqr : q * 10 ^ e + r = m.natAbs := by
        rw [Nat.mul_comm]
        exact Nat.div_add_mod _ _
      rw [hqr]
      simp only [mkSign]
      by_cases hm : m < 0
      · rw [if_pos (by simpa using hm : (decide (m < 0)) = true)]
        omega
      · rw [if_neg (by simpa using hm : ¬ (decide (m < 0)) = true)]
        omega
    rw [hsign]
  have hread : readDigits (natChars q ++ ('.' :: (fracChars e r ++ rest))) 0
      = (q, '.' :: (fracChars e r ++ rest)) := by
    apply readDigits_natChars_stop
    exact Or.inr ⟨'.', _, rfl, by decide⟩
  obtain ⟨c0, cs0, hnat, hc0⟩ : ∃ c0 cs0, natChars q = c0 :: cs0 ∧ isDigitC c0 = true := by
    cases hh : natChars q with
    | nil => exact absurd hh (natChars_ne_nil _)
    | cons a l => exact ⟨a, l, rfl, natChars_all_digits _ a (by rw [hh]; simp)⟩
  have hfacts := digit_facts hc0
  have hbody : decChars m e ++ rest
      = (if m < 0 then ['-'] else []) ++ (natChars q ++ ('.' :: (fracChars e r ++ rest))) := by
    simp [decChars, List.append_assoc]
  rw [hbody]
  have hafter : parseNumAfterSign (decide (m < 0)) (natChars q ++ ('.' :: (fracChars e r ++ rest)))
      = some (.jdec m e, rest) := by
    have hsplit : natChars q ++ ('.' :: (fracChars e r ++ rest))
        = c0 :: (cs0 ++ ('.' :: (fracChars e r ++ rest))) := by rw [hnat]; rfl
    rw [hsplit]
    simp only [parseNumAfterSign, hc0, if_pos]
    rw [← hsplit, hread]
    exact htail
  by_cases hm : m < 0
  · simp only [hm, if_pos]
    show parseNumber ('-' :: (natChars q ++ ('.' :: (fracChars e r ++ rest)))) = _
    rw [show parseNumber ('-' :: (natChars q ++ ('.' :: (fracChars e r ++ rest))))
        = parseNumAfterSign true (natChars q ++ ('.' :: (fracChars e r ++ rest))) from rfl]
    rw [show (true : Bool) = decide (m < 0) from by simp [hm]]
    exact hafter
  · rw [if_neg hm]
    simp only [List.nil_append]
    have hsplit : natChars q ++ ('.' :: (fracChars e r ++ rest))
        = c0 :: (cs0 ++ ('.' :: (fracChars e r ++ rest))) := by rw [hnat]; rfl
    rw [hsplit]
    have hstep : parseNumber (c0 :: (cs0 ++ ('.' :: (fracChars e r ++ rest))))
        = parseNumAfterSign false (c0 :: (cs0 ++ ('.' :: (fracChars e r ++ rest)))) := by
      simp [parseNumber, hfacts.2.1]
    rw [hstep, ← hsplit]
    rw [show (false : Bool) = decide (m < 0) from by simp [hm]]
    exact hafter

/-! ### String parsing round-trip -/

theorem parseStringBody_escJ (cs rest : List Char) :
    parseStringBody (escJ cs ++ '"' :: rest) = some (cs, rest) := by
  induction cs with
  | nil =>
    show parseStringBody ([] ++ '"' :: rest) = _
    rw [List.nil_append, parseStringBody.eq_def]
    rfl
  | cons c tl ih =>
    have hstep : escJ (c :: tl) ++ '"' :: rest = escJChar c ++ (escJ tl ++ '"' :: rest) := by
      simp [escJ]
    rw [hstep]
    by_cases h1 : c = '"'
    · subst h1
      show parseStringBody ('\\' :: '"' :: (escJ tl ++ '"' :: rest)) = _
      rw [parseStringBody.eq_def]
      simp [unescC, ih]
    by_cases h2 : c = '\\'
    · subst h2
      show parseStringBody ('\\' :: '\\' :: (escJ tl ++ '"' :: rest)) = _
      rw [parseStringBody.eq_def]
      simp [unescC, ih]
    by_cases h3 : c = Char.ofNat 10
    · subst h3
      show parseStringBody ('\\' :: 'n' :: (escJ tl ++ '"' :: rest)) = _
      rw [parseStringBody.eq_def]
      simp [unescC, ih]
    by_cases h4 : c = Char.ofNat 9
    · subst h4
      show parseStringBody ('\\' :: 't' :: (escJ tl ++ '"' :: rest)) = _
      rw [parseStringBody.eq_def]
      simp [unescC, ih]
    by_cases h5 : c = Char.ofNat 13
    · subst h5
      show parseStringBody ('\\' :: 'r' :: (escJ tl ++ '"' :: rest)) = _
      rw [parseStringBody.eq_def]
      simp [unescC, ih]
    · have hchar : escJChar c = [c] := by simp [escJChar, h1, h2, h3, h4, h5]
      rw [hchar]
      show parseStringBody (c :: (escJ tl ++ '"' :: rest)) = _
      rw [parseStringBody.eq_def]
      simp [h1, h2, ih]


/-! ### Canonical values and parser fuel cost -/

mutual

/-- Canonical values: every decimal float carries at least one fraction
digit (exactly the values the decoder can produce). -/
def wfJ : JVal → Bool
  | .jdec _ e => decide (1 ≤ e)
  | .jarr xs => wfArr xs
  | .jobj kvs => wfObj kvs
  | _ => true

def wfArr : JArr → Bool
  | .nil => true
  | .cons v tl => wfJ v && wfArr tl

def wfObj : JObj → Bool
  | .nil => true
  | .cons _ v tl => wfJ v && wfObj tl

end

mutual

def costJ : JVal → Nat
  | .jarr xs => 1 + costArr xs
  | .jobj kvs => 1 + costObj kvs
  | _ => 1

def costArr : JArr → Nat
  | .nil => 1
  | .cons v tl => 1 + max (costJ v) (costArr tl)

def costObj : JObj → Nat
  | .nil => 1
  | .cons _ v tl => 1 + max (costJ v) (costObj tl)

end

/-! ### Whitespace helper lemmas -/

theorem skipWs_cons_of_ws {c : Char} (h : isWsC c = true) (l : List Char) :
    skipWs (c :: l) = skipWs l := by
  simp [skipWs, h]

theorem skipWs_idem (l : List Char) : skipWs (skipWs l) = skipWs l := by
  induction l with
  | nil => rfl
  | cons c cs ih =>
    by_cases h : isWsC c = true
    · rw [skipWs_cons_of_ws h, ih]
    · have h' : isWsC c = false := by simpa using h
      rw [skipWs_cons_of_not h', skipWs_cons_of_not h']

theorem parseValue_skipWs (f : Nat) (cs : List Char) :
    parseValue f cs = parseValue f (skipWs cs) := by
  cases f with
  | zero => simp only [parseValue]
  | succ f => simp only [parseValue, skipWs_idem]

theorem parseItems_ws {c : Char} (h : isWsC c = true) (f : Nat) (l : List Char) :
    parseItems f (c :: l) = parseItems f l := by
  cases f with
  | zero => simp only [parseItems]
  | succ f =>
    simp only [parseItems]
    rw [parseValue_skipWs f (c :: l), skipWs_cons_of_ws h, ← parseValue_skipWs]

/-! ### First character of an encoded value -/

theorem natChars_shape (n : Nat) : ∃ c cs, natChars n = c :: cs ∧ isDigitC c = true := by
  cases hh : natChars n with
  | nil => exact absurd hh (natChars_ne_nil _)
  | cons a l => exact ⟨a, l, rfl, natChars_all_digits _ a (by rw [hh]; simp)⟩

theorem digit_facts2 {c : Char} (h : isDigitC c = true) :
    c ≠ '\x7b' ∧ c ≠ '[' ∧ c ≠ '"' ∧ c ≠ 'f' ∧ c ≠ 't' ∧ c ≠ 'n' := by
  refine ⟨fun he => ?_, fun he => ?_, fun he => ?_, fun he => ?_, fun he => ?_,
    fun he => ?_⟩ <;> (subst he; exact absurd h (by decide))

theorem jsonChars_shape (v : JVal) :
    ∃ c cs, jsonChars v = c :: cs ∧ isWsC c = false ∧ c ≠ ']' := by
  cases v with
  | jnull => exact ⟨'n', ['u', 'l', 'l'], by simp [jsonChars], by decide, by decide⟩
  | jbool b =>
    cases b with
    | true => exact ⟨'t', ['r', 'u', 'e'], by simp [jsonChars], by decide, by decide⟩
    | false => exact ⟨'f', ['a', 'l', 's', 'e'], by simp [jsonChars], by decide, by decide⟩
  | jint n =>
    have hj : jsonChars (.jint n) = intChars n := by simp [jsonChars]
    unfold intChars at hj
    by_cases hn : n < 0
    · rw [if_pos hn] at hj
      exact ⟨'-', _, hj, by decide, by decide⟩
    · rw [if_neg hn] at hj
      obtain ⟨c, cs, hnat, hc⟩ := natChars_shape n.natAbs
      have hf := digit_facts hc
      exact ⟨c, cs, by rw [hj, hnat], hf.1, hf.2.2.2.1⟩
  | jdec m e =>
    have hj : jsonChars (.jdec m e) = decChars m e := by simp [jsonChars]
    unfold decChars at hj
    by_cases hm : m < 0
    · rw [if_pos hm] at hj
      exact ⟨'-', _, by rw [hj]; rfl, by decide, by decide⟩
    · rw [if_neg hm] at hj
      obtain ⟨c, cs, hnat, hc⟩ := natChars_shape (m.natAbs / 10 ^ e)
      have hf := digit_facts hc
      refine ⟨c, cs ++ '.' :: fracChars e (m.natAbs % 10 ^ e), ?_, hf.1, hf.2.2.2.1⟩
      rw [hj, List.nil_append, hnat]
      rfl
  | jstr str =>
    exact ⟨'"', escJ str.data ++ ['"'], by simp [jsonChars], by decide, by decide⟩
  | jarr xs =>
    exact ⟨'[', jsonCharsArr xs ++ [']'], by simp [jsonChars], by decide, by decide⟩
  | jobj kvs =>
    exact ⟨'{', jsonCharsObj kvs ++ ['}'], by simp [jsonChars], by decide, by decide⟩


/-! ### Parser dispatch lemmas -/

def sepOk (rest : List Char) : Prop :=
  rest = [] ∨ ∃ c cs, rest = c :: cs ∧ isDigitC c = false ∧ c ≠ '.'

theorem sepOk_comma (l : List Char) : sepOk (',' :: l) :=
  Or.inr ⟨',', l, rfl, by decide, by decide⟩

theorem sepOk_rbracket (l : List Char) : sepOk (']' :: l) :=
  Or.inr ⟨']', l, rfl, by decide, by decide⟩

theorem sepOk_rbrace (l : List Char) : sepOk ('}' :: l) :=
  Or.inr ⟨'}', l, rfl, by decide, by decide⟩

theorem sepOk_digits {rest : List Char} (h : sepOk rest) :
    rest = [] ∨ ∃ c cs, rest = c :: cs ∧ isDigitC c = false := by
  rcases h with rfl | ⟨c, cs, rfl, h1, _⟩
  · exact Or.inl rfl
  · exact Or.inr ⟨c, cs, rfl, h1⟩

theorem sepOk_dot {rest : List Char} (h : sepOk rest) :
    rest = [] ∨ ∃ c cs, rest = c :: cs ∧ c ≠ '.' := by
  rcases h with rfl | ⟨c, cs, rfl, _, h2⟩
  · exact Or.inl rfl
  · exact Or.inr ⟨c, cs, rfl, h2⟩

theorem parseValue_succ_num {c0 : Char} (f : Nat) (tail : List Char)
    (hws : isWsC c0 = false) (h1 : c0 ≠ 'n') (h2 : c0 ≠ 't') (h3 : c0 ≠ 'f')
    (h4 : c0 ≠ '"') (h5 : c0 ≠ '[') (h6 : c0 ≠ '{') :
    parseValue (f + 1) (c0 :: tail) = parseNumber (c0 :: tail) := by
  simp only [parseValue]
  rw [skipWs_cons_of_not hws]
  simp [h1, h2, h3, h4, h5, h6]

theorem parseValue_succ_null (f : Nat) (r : List Char) :
    parseValue (f + 1) ('n' :: 'u' :: 'l' :: 'l' :: r) = some (.jnull, r) := by
  simp only [parseValue]
  rw [skipWs_cons_of_not (by decide)]
  simp

theorem parseValue_succ_true (f : Nat) (r : List Char) :
    parseValue (f + 1) ('t' :: 'r' :: 'u' :: 'e' :: r) = some (.jbool true, r) := by
  simp only [parseValue]
  rw [skipWs_cons_of_not (by decide)]
  simp

theorem parseValue_succ_false (f : Nat) (r : List Char) :
    parseValue (f + 1) ('f' :: 'a' :: 'l' :: 's' :: 'e' :: r) = some (.jbool false, r) := by
  simp only [parseValue]
  rw [skipWs_cons_of_not (by decide)]
  simp

theorem parseValue_succ_str (f : Nat) (r : List Char) :
    parseValue (f + 1) ('"' :: r)
      = (parseStringBody r).map fun p => (.jstr ⟨p.1⟩, p.2) := by
  simp only [parseValue]
  rw [skipWs_cons_of_not (by decide)]
  simp

theorem parseValue_succ_arr (f : Nat) (r : List Char) :
    parseValue (f + 1) ('[' :: r) = parseArrBody f (skipWs r) := by
  simp only [parseValue]
  rw [skipWs_cons_of_not (by decide)]
  simp

theorem parseValue_succ_obj (f : Nat) (r : List Char) :
    parseValue (f + 1) ('{' :: r) = parseObjBody f (skipWs r) := by
  simp only [parseValue]
  rw [skipWs_cons_of_not (by decide)]
  simp

theorem parseArrBody_cons_ne {c0 : Char} (f : Nat) (l : List Char) (h : c0 ≠ ']') :
    parseArrBody f (c0 :: l) = (parseItems f (c0 :: l)).map fun q => (.jarr q.1, q.2) := by
  simp [parseArrBody, h]

theorem parseObjBody_key (f : Nat) (l : List Char) :
    parseObjBody f ('"' :: l) = (parseMembers f ('"' :: l)).map fun q => (.jobj q.1, q.2) := by
  simp [parseObjBody]

theorem parseMembers_ws {c : Char} (h : isWsC c = true) (f : Nat) (l : List Char) :
    parseMembers f (c :: l) = parseMembers f l := by
  cases f with
  | zero => simp only [parseMembers]
  | succ f =>
    simp only [parseMembers]
    rw [skipWs_cons_of_ws h]


theorem parseValue_ws_cons {c : Char} (h : isWsC c = true) (f : Nat) (l : List Char) :
    parseValue f (c :: l) = parseValue f l := by
  rw [parseValue_skipWs f (c :: l), skipWs_cons_of_ws h, ← parseValue_skipWs]

theorem num_head_facts {c : Char} (h : isDigitC c = true ∨ c = '-') :
    isWsC c = false ∧ c ≠ 'n' ∧ c ≠ 't' ∧ c ≠ 'f' ∧ c ≠ '"' ∧ c ≠ '[' ∧ c ≠ '{' := by
  rcases h with h | rfl
  · have a := digit_facts h
    have b := digit_facts2 h
    exact ⟨a.1, b.2.2.2.2.2, b.2.2.2.2.1, b.2.2.2.1, b.2.2.1, b.2.1, b.1⟩
  · exact ⟨by decide, by decide, by decide, by decide, by decide, by decide, by decide⟩

theorem intChars_shape (n : Int) :
    ∃ c cs, intChars n = c :: cs ∧ (isDigitC c = true ∨ c = '-') := by
  unfold intChars
  by_cases hn : n < 0
  · rw [if_pos hn]
    exact ⟨'-', natChars n.natAbs, rfl, Or.inr rfl⟩
  · rw [if_neg hn]
    obtain ⟨c, cs, h, hc⟩ := natChars_shape n.natAbs
    exact ⟨c, cs, h, Or.inl hc⟩

theorem decChars_shape (m : Int) (e : Nat) :
    ∃ c cs, decChars m e = c :: cs ∧ (isDigitC c = true ∨ c = '-') := by
  unfold decChars
  by_cases hm : m < 0
  · rw [if_pos hm]
    exact ⟨'-', _, rfl, Or.inr rfl⟩
  · rw [if_neg hm]
    obtain ⟨c, cs, h, hc⟩ := natChars_shape (m.natAbs / 10 ^ e)
    refine ⟨c, cs ++ '.' :: fracChars e (m.natAbs % 10 ^ e), ?_, Or.inl hc⟩
    rw [List.nil_append, h]
    rfl

/-! ### The round-trip theorem: parsing an encoded canonical value -/

mutual

theorem parseValue_jsonChars : ∀ (v : JVal) (f : Nat) (rest : List Char),
    wfJ v = true → costJ v ≤ f → sepOk rest →
    parseValue f (jsonChars v ++ rest) = some (v, rest)
  | .jnull, f, rest, _, hcost, _ => by
    obtain ⟨f', rfl⟩ : ∃ f', f = f' + 1 := by
      have h1 : 1 ≤ f := le_trans (by simp [costJ]) hcost
      exact ⟨f - 1, by omega⟩
    have hj : jsonChars .jnull ++ rest = 'n' :: 'u' :: 'l' :: 'l' :: rest := by
      simp [jsonChars]
    rw [hj, parseValue_succ_null]
  | .jbool b, f, rest, _, hcost, _ => by
    obtain ⟨f', rfl⟩ : ∃ f', f = f' + 1 := by
      have h1 : 1 ≤ f := le_trans (by simp [costJ]) hcost
      exact ⟨f - 1, by omega⟩
    cases b with
    | true =>
      have hj : jsonChars (.jbool true) ++ rest = 't' :: 'r' :: 'u' :: 'e' :: rest := by
        simp [jsonChars]
      rw [hj, parseValue_succ_true]
    | false =>
      have hj : jsonChars (.jbool false) ++ rest = 'f' :: 'a' :: 'l' :: 's' :: 'e' :: rest := by
        simp [jsonChars]
      rw [hj, parseValue_succ_false]
  | .jint n, f, rest, _, hcost, hrest => by
    obtain ⟨f', rfl⟩ : ∃ f', f = f' + 1 := by
      have h1 : 1 ≤ f := le_trans (by simp [costJ]) hcost
      exact ⟨f - 1, by omega⟩
    have hj : jsonChars (.jint n) = intChars n := by simp [jsonChars]
    obtain ⟨c0, cs0, hic, hcl⟩ := intChars_shape n
    have hp := num_head_facts hcl
    have hsplit : jsonChars (.jint n) ++ rest = c0 :: (cs0 ++ rest) := by
      rw [hj, hic]
      rfl
    rw [hsplit, parseValue_succ_num f' _ hp.1 hp.2.1 hp.2.2.1 hp.2.2.2.1 hp.2.2.2.2.1
      hp.2.2.2.2.2.1 hp.2.2.2.2.2.2]
    rw [show c0 :: (cs0 ++ rest) = intChars n ++ rest from by rw [hic]; rfl]
    exact parseNumber_intChars n (sepOk_digits hrest) (sepOk_dot hrest)
  | .jdec m e, f, rest, hwf, hcost, hrest => by
    obtain ⟨f', rfl⟩ : ∃ f', f = f' + 1 := by
      have h1 : 1 ≤ f := le_trans (by simp [costJ]) hcost
      exact ⟨f - 1, by omega⟩
    have he : 1 ≤ e := by simpa [wfJ] using hwf
    have hj : jsonChars (.jdec m e) = decChars m e := by simp [jsonChars]
    obtain ⟨c0, cs0, hic, hcl⟩ := decChars_shape m e
    have hp := num_head_facts hcl
    have hsplit : jsonChars (.jdec m e) ++ rest = c0 :: (cs0 ++ rest) := by
      rw [hj, hic]
      rfl
    rw [hsplit, parseValue_succ_num f' _ hp.1 hp.2.1 hp.2.2.1 hp.2.2.2.1 hp.2.2.2.2.1
      hp.2.2.2.2.2.1 hp.2.2.2.2.2.2]
    rw [show c0 :: (cs0 ++ rest) = decChars m e ++ rest from by rw [hic]; rfl]
    exact parseNumber_decChars m e he (sepOk_digits hrest)
  | .jstr s, f, rest, _, hcost, _ => by
    obtain ⟨f', rfl⟩ : ∃ f', f = f' + 1 := by
      have h1 : 1 ≤ f := le_trans (by simp [costJ]) hcost
      exact ⟨f - 1, by omega⟩
    have hj : jsonChars (.jstr s) ++ rest = '"' :: (escJ s.data ++ '"' :: rest) := by
      simp [jsonChars]
    rw [hj, parseValue_succ_str, parseStringBody_escJ]
    rfl
  | .jarr .nil, f, rest, _, hcost, _ => by
    obtain ⟨f', rfl⟩ : ∃ f', f = f' + 1 := by
      have h1 : 1 ≤ f := le_trans (by simp [costJ]) hcost
      exact ⟨f - 1, by omega⟩
    have hj : jsonChars (.jarr .nil) ++ rest = '[' :: ']' :: rest := by
      simp [jsonChars, jsonCharsArr]
    rw [hj, parseValue_succ_arr, skipWs_cons_of_not (by decide)]
    simp [parseArrBody]
  | .jarr (.cons v tl), f, rest, hwf, hcost, _ => by
    have hcost' : 1 + costArr (.cons v tl) ≤ f := by simpa [costJ] using hcost
    obtain ⟨f', rfl⟩ : ∃ f', f = f' + 1 := ⟨f - 1, by omega⟩
    have hwf' : wfArr (.cons v tl) = true := by simpa [wfJ] using hwf
    have hj : jsonChars (.jarr (.cons v tl)) ++ rest
        = '[' :: (jsonCharsArr (.cons v tl) ++ ']' :: rest) := by
      simp [jsonChars]
    rw [hj, parseValue_succ_arr]
    obtain ⟨c0, cs0, hshape, hws, hbr⟩ := jsonChars_shape v
    cases tl with
    | nil =>
      have harr : jsonCharsArr (.cons v .nil) ++ ']' :: rest
          = c0 :: (cs0 ++ ']' :: rest) := by
        simp [jsonCharsArr, hshape]
      rw [harr, skipWs_cons_of_not hws, parseArrBody_cons_ne f' _ hbr, ← harr]
      rw [parseItems_jsonCharsArr (.cons v .nil) f' rest hwf' (by omega) v .nil rfl]
      rfl
    | cons w ts =>
      have harr : jsonCharsArr (.cons v (.cons w ts)) ++ ']' :: rest
          = c0 :: (cs0 ++ (',' :: ' ' :: (jsonCharsArr (.cons w ts) ++ ']' :: rest))) := by
        simp [jsonCharsArr, hshape, List.append_assoc]
      rw [harr, skipWs_cons_of_not hws, parseArrBody_cons_ne f' _ hbr, ← harr]
      rw [parseItems_jsonCharsArr (.cons v (.cons w ts)) f' rest hwf' (by omega)
        v (.cons w ts) rfl]
      rfl
  | .jobj .nil, f, rest, _, hcost, _ => by
    obtain ⟨f', rfl⟩ : ∃ f', f = f' + 1 := by
      have h1 : 1 ≤ f := le_trans (by simp [costJ]) hcost
      exact ⟨f - 1, by omega⟩
    have hj : jsonChars (.jobj .nil) ++ rest = '{' :: '}' :: rest := by
      simp [jsonChars, jsonCharsObj]
    rw [hj, parseValue_succ_obj, skipWs_cons_of_not (by decide)]
    simp [parseObjBody]
  | .jobj (.cons k v tl), f, rest, hwf, hcost, _ => by
    have hcost' : 1 + costObj (.cons k v tl) ≤ f := by simpa [costJ] using hcost
    obtain ⟨f', rfl⟩ : ∃ f', f = f' + 1 := ⟨f - 1, by omega⟩
    have hwf' : wfObj (.cons k v tl) = true := by simpa [wfJ] using hwf
    have hj : jsonChars (.jobj (.cons k v tl)) ++ rest
        = '{' :: (jsonCharsObj (.cons k v tl) ++ '}' :: rest) := by
      simp [jsonChars]
    rw [hj, parseValue_succ_obj]
    cases tl with
    | nil =>
      have hobj : jsonCharsObj (.cons k v .nil) ++ '}' :: rest
          = '"' :: (escJ k.data ++ '"' :: ':' :: ' ' :: (jsonChars v ++ '}' :: rest)) := by
        simp [jsonCharsObj, List.append_assoc]
      rw [hobj, skipWs_cons_of_not (by decide), parseObjBody_key, ← hobj]
      rw [parseMembers_jsonCharsObj (.cons k v .nil) f' rest hwf' (by omega) k v .nil rfl]
      rfl
    | cons k2 v2 ts =>
      have hobj : jsonCharsObj (.cons k v (.cons k2 v2 ts)) ++ '}' :: rest
          = '"' :: (escJ k.data ++ '"' :: ':' :: ' ' :: (jsonChars v
              ++ ',' :: ' ' :: (jsonCharsObj (.cons k2 v2 ts) ++ '}' :: rest))) := by
        simp [jsonCharsObj, List.append_assoc]
      rw [hobj, skipWs_cons_of_not (by decide), parseObjBody_key, ← hobj]
      rw [parseMembers_jsonCharsObj (.cons k v (.cons k2 v2 ts)) f' rest hwf' (by omega)
        k v (.cons k2 v2 ts) rfl]
      rfl

theorem parseItems_jsonCharsArr : ∀ (xs : JArr) (f : Nat) (rest : List Char),
    wfArr xs = true → costArr xs ≤ f → ∀ (v : JVal) (tl : JArr), xs = .cons v tl →
    parseItems f (jsonCharsArr xs ++ ']' :: rest) = some (xs, rest)
  | .nil, _, _, _, _, _, _, h => by cases h
  | .cons v tl, f, rest, hwf, hcost, _, _, _ => by
    have hwty : wfJ v = true ∧ wfArr tl = true := by
      simpa [wfArr, Bool.and_eq_true] using hwf
    have hcost' : 1 + max (costJ v) (costArr tl) ≤ f := by simpa [costArr] using hcost
    obtain ⟨f', rfl⟩ : ∃ f', f = f' + 1 := ⟨f - 1, by omega⟩
    cases tl with
    | nil =>
      have hj : jsonCharsArr (.cons v .nil) ++ ']' :: rest = jsonChars v ++ ']' :: rest := by
        simp [jsonCharsArr]
      rw [hj]
      simp only [parseItems]
      rw [parseValue_jsonChars v f' (']' :: rest) hwty.1 (by omega) (sepOk_rbracket rest)]
      simp only [Option.bind]
      rw [skipWs_cons_of_not (by decide)]
      simp
    | cons w ts =>
      have hj : jsonCharsArr (.cons v (.cons w ts)) ++ ']' :: rest
          = jsonChars v ++ (',' :: ' ' :: (jsonCharsArr (.cons w ts) ++ ']' :: rest)) := by
        simp [jsonCharsArr, List.append_assoc]
      rw [hj]
      simp only [parseItems]
      rw [parseValue_jsonChars v f' _ hwty.1 (by omega) (sepOk_comma _)]
      simp only [Option.bind]
      rw [skipWs_cons_of_not (by decide)]
      simp only []
      rw [parseItems_ws (by decide) f' _]
      rw [parseItems_jsonCharsArr (.cons w ts) f' rest hwty.2 (by omega) w ts rfl]
      rfl

theorem parseMembers_jsonCharsObj : ∀ (kvs : JObj) (f : Nat) (rest : List Char),
    wfObj kvs = true → costObj kvs ≤ f →
    ∀ (k : String) (v : JVal) (tl : JObj), kvs = .cons k v tl →
    parseMembers f (jsonCharsObj kvs ++ '}' :: rest) = some (kvs, rest)
  | .nil, _, _, _, _, _, _, _, h => by cases h
  | .cons k v tl, f, rest, hwf, hcost, _, _, _, _ => by
    have hwty : wfJ v = true ∧ wfObj tl = true := by
      simpa [wfObj, Bool.and_eq_true] using hwf
    have hcost' : 1 + max (costJ v) (costObj tl) ≤ f := by simpa [costObj] using hcost
    obtain ⟨f', rfl⟩ : ∃ f', f = f' + 1 := ⟨f - 1, by omega⟩
    cases tl with
    | nil =>
      have hj : jsonCharsObj (.cons k v .nil) ++ '}' :: rest
          = '"' :: (escJ k.data ++ '"' :: (':' :: (' ' :: (jsonChars v ++ '}' :: rest)))) := by
        rw [jsonCharsObj.eq_def]
        simp [List.append_assoc]
      rw [hj]
      simp only [parseMembers]
      rw [skipWs_cons_of_not (by decide)]
      simp only []
      rw [parseStringBody_escJ]
      simp only [Option.bind]
      rw [skipWs_cons_of_not (by decide)]
      simp only []
      rw [parseValue_ws_cons (by decide)]
      rw [parseValue_jsonChars v f' ('}' :: rest) hwty.1 (by omega) (sepOk_rbrace rest)]
      simp only [Option.bind]
      rw [skipWs_cons_of_not (by decide)]
      simp
    | cons k2 v2 ts =>
      have hj : jsonCharsObj (.cons k v (.cons k2 v2 ts)) ++ '}' :: rest
          = '"' :: (escJ k.data ++ '"' :: (':' :: (' ' :: (jsonChars v
              ++ ',' :: ' ' :: (jsonCharsObj (.cons k2 v2 ts) ++ '}' :: rest))))) := by
        rw [jsonCharsObj.eq_def]
        simp [List.append_assoc]
      rw [hj]
      simp only [parseMembers]
      rw [skipWs_cons_of_not (by decide)]
      simp only []
      rw [parseStringBody_escJ]
      simp only [Option.bind]
      rw [skipWs_cons_of_not (by decide)]
      simp only []
      rw [parseValue_ws_cons (by decide)]
      rw [parseValue_jsonChars v f' _ hwty.1 (by omega) (sepOk_comma _)]
      simp only [Option.bind]
      rw [skipWs_cons_of_not (by decide)]
      simp only []
      rw [parseMembers_ws (by decide) f' _]
      rw [parseMembers_jsonCharsObj (.cons k2 v2 ts) f' rest hwty.2 (by omega) k2 v2 ts rfl]
      rfl

end


/-! ### Fuel bound and the decoder round-trip -/

theorem jsonChars_len_pos (v : JVal) : 1 ≤ (jsonChars v).length := by
  obtain ⟨c, cs, h, _, _⟩ := jsonChars_shape v
  rw [h]
  simp

mutual

theorem costJ_le : ∀ v : JVal, costJ v ≤ (jsonChars v).length
  | .jnull => by simp [costJ, jsonChars]
  | .jbool b => by cases b <;> simp [costJ, jsonChars]
  | .jint n => by
    have h := jsonChars_len_pos (.jint n)
    simp only [costJ]
    omega
  | .jdec m e => by
    have h := jsonChars_len_pos (.jdec m e)
    simp only [costJ]
    omega
  | .jstr s => by
    have h := jsonChars_len_pos (.jstr s)
    simp only [costJ]
    omega
  | .jarr xs => by
    have h := costArr_le xs
    simp only [costJ]
    simp only [jsonChars]
    simp only [List.length_cons, List.length_append, List.length_singleton]
    omega
  | .jobj kvs => by
    have h := costObj_le kvs
    simp only [costJ]
    simp only [jsonChars]
    simp only [List.length_cons, List.length_append, List.length_singleton]
    omega

theorem costArr_le : ∀ xs : JArr, costArr xs ≤ (jsonCharsArr xs).length + 1
  | .nil => by simp [costArr, jsonCharsArr]
  | .cons v tl => by
    have hv := costJ_le v
    have hv1 := jsonChars_len_pos v
    cases tl with
    | nil =>
      simp only [costArr, jsonCharsArr, List.append_nil]
      omega
    | cons w ts =>
      have htl := costArr_le (.cons w ts)
      have hu : jsonCharsArr (.cons v (.cons w ts))
          = jsonChars v ++ ',' :: ' ' :: jsonCharsArr (.cons w ts) := by
        rw [jsonCharsArr.eq_def]
      have hc : costArr (.cons v (.cons w ts))
          = 1 + max (costJ v) (costArr (.cons w ts)) := by
        rw [costArr.eq_def]
      rw [hc, hu]
      simp only [List.length_append, List.length_cons]
      omega

theorem costObj_le : ∀ kvs : JObj, costObj kvs ≤ (jsonCharsObj kvs).length + 1
  | .nil => by simp [costObj, jsonCharsObj]
  | .cons k v tl => by
    have hv := costJ_le v
    have hv1 := jsonChars_len_pos v
    cases tl with
    | nil =>
      simp only [costObj, jsonCharsObj, List.append_nil, List.length_append,
        List.length_cons]
      omega
    | cons k2 v2 ts =>
      have htl := costObj_le (.cons k2 v2 ts)
      have hu : jsonCharsObj (.cons k v (.cons k2 v2 ts))
          = ('"' :: (escJ k.data ++ ['"'])) ++ ':' :: ' ' :: jsonChars v
            ++ ',' :: ' ' :: jsonCharsObj (.cons k2 v2 ts) := by
        rw [jsonCharsObj.eq_def]
      have hc : costObj (.cons k v (.cons k2 v2 ts))
          = 1 + max (costJ v) (costObj (.cons k2 v2 ts)) := by
        rw [costObj.eq_def]
      rw [hc, hu]
      simp only [List.length_append, List.length_cons]
      omega

end

/-- Round-trip: decoding the to-JSON encoding of a canonical value gives it
back (deep equality, object key order included). -/
theorem decodeJ_tojsonJ {v : JVal} (hwf : wfJ v = true) :
    decodeJ (tojsonJ v) = some v := by
  unfold decodeJ tojsonJ
  have hdata : (String.mk (jsonChars v)).data = jsonChars v := rfl
  rw [hdata]
  have hval : parseValue ((jsonChars v).length + 1) (jsonChars v) = some (v, []) := by
    have := parseValue_jsonChars v ((jsonChars v).length + 1) [] hwf
      (le_trans (costJ_le v) (by omega)) (Or.inl rfl)
    simpa using this
  rw [hval]
  rfl


/-! ### The decoder only produces canonical values -/

theorem readFrac_count_ge : ∀ (l : List Char) (acc k : Nat), k ≤ (readFrac l acc k).2.1 := by
  intro l
  induction l with
  | nil => intro acc k; simp [readFrac]
  | cons c cs ih =>
    intro acc k
    by_cases h : isDigitC c = true
    · rw [show readFrac (c :: cs) acc k = readFrac cs (acc * 10 + (c.toNat - 48)) (k + 1)
        from by simp [readFrac, h]]
      exact le_trans (by omega) (ih _ (k + 1))
    · have h' : isDigitC c = false := by simpa using h
      simp [readFrac, h']

theorem parseNumTail_wf (neg : Bool) (n : Nat) (l : List Char) (v : JVal) (r : List Char)
    (h : parseNumTail neg n l = some (v, r)) : wfJ v = true := by
  rcases l with _ | ⟨c, l2⟩
  · simp [parseNumTail] at h
    obtain ⟨rfl, rfl⟩ := h
    simp [wfJ]
  · by_cases hc : c = '.'
    · subst hc
      rcases l2 with _ | ⟨d, cs3⟩
      · simp [parseNumTail] at h
      · by_cases hd : isDigitC d = true
        · rcases hrf : readFrac (d :: cs3) 0 0 with ⟨f1, p1⟩
          rcases p1 with ⟨k1, cs4⟩
          have hk : 1 ≤ k1 := by
            have hstep : readFrac (d :: cs3) 0 0
                = readFrac cs3 (0 * 10 + (d.toNat - 48)) 1 := by
              simp [readFrac, hd]
            have hge := readFrac_count_ge cs3 (0 * 10 + (d.toNat - 48)) 1
            rw [← hstep, hrf] at hge
            simpa using hge
          simp [parseNumTail, hd, hrf] at h
          obtain ⟨rfl, rfl⟩ := h
          simp [wfJ]
          omega
        · have hd' : isDigitC d = false := by simpa using hd
          simp [parseNumTail, hd'] at h
    · simp [parseNumTail, hc] at h
      obtain ⟨rfl, rfl⟩ := h
      simp [wfJ]

theorem parseNumAfterSign_wf (neg : Bool) (l : List Char) (v : JVal) (r : List Char)
    (h : parseNumAfterSign neg l = some (v, r)) : wfJ v = true := by
  rcases l with _ | ⟨c, cs⟩
  · simp [parseNumAfterSign] at h
  · by_cases hc : isDigitC c = true
    · rcases hrd : readDigits (c :: cs) 0 with ⟨n1, cs2⟩
      rw [show parseNumAfterSign neg (c :: cs) = parseNumTail neg n1 cs2 from by
        simp [parseNumAfterSign, hc, hrd]] at h
      exact parseNumTail_wf neg n1 cs2 v r h
    · have hc' : isDigitC c = false := by simpa using hc
      simp [parseNumAfterSign, hc'] at h

theorem parseNumber_wf (l : List Char) (v : JVal) (r : List Char)
    (h : parseNumber l = some (v, r)) : wfJ v = true := by
  rcases l with _ | ⟨c, cs⟩
  · exact parseNumAfterSign_wf false [] v r (by simpa [parseNumber] using h)
  · by_cases hc : c = '-'
    · subst hc
      exact parseNumAfterSign_wf true cs v r (by simpa [parseNumber] using h)
    · exact parseNumAfterSign_wf false (c :: cs) v r (by
        rw [show parseNumber (c :: cs) = parseNumAfterSign false (c :: cs) from by
          simp [parseNumber, hc]] at h
        exact h)


theorem skipWs_head_not_ws : ∀ {cs c rr}, skipWs cs = c :: rr → isWsC c = false := by
  intro cs
  induction cs with
  | nil => intro c rr h; simp [skipWs] at h
  | cons a l ih =>
    intro c rr h
    by_cases ha : isWsC a = true
    · rw [skipWs_cons_of_ws ha] at h
      exact ih h
    · have ha' : isWsC a = false := by simpa using ha
      rw [skipWs_cons_of_not ha'] at h
      cases h
      exact ha'

theorem parseValue_succ_head {c : Char} (hws : isWsC c = false) (f : Nat) (rr : List Char) :
    parseValue (f + 1) (c :: rr) =
      if c = 'n' then
        (match rr with | 'u' :: 'l' :: 'l' :: r2 => some (.jnull, r2) | _ => none)
      else if c = 't' then
        (match rr with | 'r' :: 'u' :: 'e' :: r2 => some (.jbool true, r2) | _ => none)
      else if c = 'f' then
        (match rr with | 'a' :: 'l' :: 's' :: 'e' :: r2 => some (.jbool false, r2) | _ => none)
      else if c = '"' then (parseStringBody rr).map fun p => (.jstr ⟨p.1⟩, p.2)
      else if c = '[' then parseArrBody f (skipWs rr)
      else if c = '{' then parseObjBody f (skipWs rr)
      else parseNumber (c :: rr) := by
  simp only [parseValue]
  rw [skipWs_cons_of_not hws]

theorem parseItems_succ (f : Nat) (cs : List Char) :
    parseItems (f + 1) cs = (parseValue f cs).bind fun p =>
      match skipWs p.2 with
      | ',' :: r2 => (parseItems f r2).map fun q => (.cons p.1 q.1, q.2)
      | ']' :: r2 => some (.cons p.1 .nil, r2)
      | _ => none := by
  simp only [parseItems]

theorem parser_wf : ∀ f : Nat,
    (∀ cs v r, parseValue f cs = some (v, r) → wfJ v = true) ∧
    (∀ cs q r, parseItems f cs = some (q, r) → wfArr q = true) ∧
    (∀ cs q r, parseMembers f cs = some (q, r) → wfObj q = true) := by
  intro f
  induction f with
  | zero =>
    refine ⟨?_, ?_, ?_⟩ <;> intro cs x r h <;>
      simp [parseValue, parseItems, parseMembers] at h
  | succ f ih =>
    obtain ⟨ihv, ihi, ihm⟩ := ih
    have harr : ∀ l v r, parseArrBody f l = some (v, r) → wfJ v = true := by
      intro l v r h
      rcases l with _ | ⟨c, l2⟩
      · rw [show parseArrBody f []
            = (parseItems f []).map (fun q => (JVal.jarr q.1, q.2)) from by
          simp [parseArrBody]] at h
        obtain ⟨a, ha, hva⟩ := Option.map_eq_some'.mp h
        obtain ⟨h1, h2⟩ : JVal.jarr a.1 = v ∧ a.2 = r := by
          simpa [Prod.ext_iff] using hva
        subst h1
        simpa [wfJ] using ihi [] a.1 a.2 (by rw [ha])
      · by_cases hc : c = ']'
        · subst hc
          rw [show parseArrBody f (']' :: l2) = some (JVal.jarr JArr.nil, l2) from by
            simp [parseArrBody]] at h
          obtain ⟨h1, h2⟩ : JVal.jarr JArr.nil = v ∧ l2 = r := by
            simpa [Prod.ext_iff] using h
          subst h1
          simp [wfJ, wfArr]
        · rw [show parseArrBody f (c :: l2)
              = (parseItems f (c :: l2)).map (fun q => (JVal.jarr q.1, q.2)) from by
            simp [parseArrBody, hc]] at h
          obtain ⟨a, ha, hva⟩ := Option.map_eq_some'.mp h
          obtain ⟨h1, h2⟩ : JVal.jarr a.1 = v ∧ a.2 = r := by
            simpa [Prod.ext_iff] using hva
          subst h1
          simpa [wfJ] using ihi (c :: l2) a.1 a.2 (by rw [ha])
    have hobjb : ∀ l v r, parseObjBody f l = some (v, r) → wfJ v = true := by
      intro l v r h
      rcases l with _ | ⟨c, l2⟩
      · rw [show parseObjBody f []
            = (parseMembers f []).map (fun q => (JVal.jobj q.1, q.2)) from by
          simp [parseObjBody]] at h
        obtain ⟨a, ha, hva⟩ := Option.map_eq_some'.mp h
        obtain ⟨h1, h2⟩ : JVal.jobj a.1 = v ∧ a.2 = r := by
          simpa [Prod.ext_iff] using hva
        subst h1
        simpa [wfJ] using ihm [] a.1 a.2 (by rw [ha])
      · by_cases hc : c = '}'
        · subst hc
          rw [show parseObjBody f ('}' :: l2) = some (JVal.jobj JObj.nil, l2) from by
            simp [parseObjBody]] at h
          obtain ⟨h1, h2⟩ : JVal.jobj JObj.nil = v ∧ l2 = r := by
            simpa [Prod.ext_iff] using h
          subst h1
          simp [wfJ, wfObj]
        · rw [show parseObjBody f (c :: l2)
              = (parseMembers f (c :: l2)).map (fun q => (JVal.jobj q.1, q.2)) from by
            simp [parseObjBody, hc]] at h
          obtain ⟨a, ha, hva⟩ := Option.map_eq_some'.mp h
          obtain ⟨h1, h2⟩ : JVal.jobj a.1 = v ∧ a.2 = r := by
            simpa [Prod.ext_iff] using hva
          subst h1
          simpa [wfJ] using ihm (c :: l2) a.1 a.2 (by rw [ha])
    refine ⟨?_, ?_, ?_⟩
    · intro cs v r h
      rcases hsw : skipWs cs with _ | ⟨c, rr⟩
      · rw [show parseValue (f + 1) cs = none from by simp only [parseValue, hsw]] at h
        simp at h
      · have hws := skipWs_head_not_ws hsw
        rw [parseValue_skipWs, hsw, parseValue_succ_head hws] at h
        split_ifs at h with h1 h2 h3 h4 h5 h6
        · split at h
          · obtain ⟨ha, hb⟩ : JVal.jnull = v ∧ _ = r := by simpa [Prod.ext_iff] using h
            subst ha
            simp [wfJ]
          · simp at h
        · split at h
          · obtain ⟨ha, hb⟩ : JVal.jbool true = v ∧ _ = r := by simpa [Prod.ext_iff] using h
            subst ha
            simp [wfJ]
          · simp at h
        · split at h
          · obtain ⟨ha, hb⟩ : JVal.jbool false = v ∧ _ = r := by simpa [Prod.ext_iff] using h
            subst ha
            simp [wfJ]
          · simp at h
        · obtain ⟨a, ha, hva⟩ := Option.map_eq_some'.mp h
          obtain ⟨h1, h2⟩ : JVal.jstr ⟨a.1⟩ = v ∧ a.2 = r := by
            simpa [Prod.ext_iff] using hva
          subst h1
          simp [wfJ]
        · exact harr _ _ _ h
        · exact hobjb _ _ _ h
        · exact parseNumber_wf _ _ _ h
    · intro cs q r h
      rw [parseItems_succ] at h
      rcases hpv : parseValue f cs with _ | ⟨p⟩ <;> rw [hpv] at h
      · simp at h
      · have hwp : wfJ p.1 = true := ihv cs p.1 p.2 (by rw [hpv])
        replace h : (match skipWs p.2 with
          | ',' :: r2 => (parseItems f r2).map fun q2 => (JArr.cons p.1 q2.1, q2.2)
          | ']' :: r2 => some (JArr.cons p.1 .nil, r2)
          | _ => none) = some (q, r) := h
        rcases hsw : skipWs p.2 with _ | ⟨c, l2⟩ <;> rw [hsw] at h
        · simp at h
        · by_cases hc : c = ','
          · subst hc
            replace h : (parseItems f l2).map
                (fun q2 => (JArr.cons p.1 q2.1, q2.2)) = some (q, r) := h
            obtain ⟨a, ha, hqa⟩ := Option.map_eq_some'.mp h
            obtain ⟨h1, h2⟩ : JArr.cons p.1 a.1 = q ∧ a.2 = r := by
              simpa [Prod.ext_iff] using hqa
            subst h1
            have := ihi l2 a.1 a.2 (by rw [ha])
            simp [wfArr, hwp, this]
          · by_cases hc2 : c = ']'
            · subst hc2
              replace h : some (JArr.cons p.1 JArr.nil, l2) = some (q, r) := h
              obtain ⟨h1, h2⟩ : JArr.cons p.1 JArr.nil = q ∧ l2 = r := by
                simpa [Prod.ext_iff] using h
              subst h1
              simp [wfArr, hwp]
            · simp [hc, hc2] at h
    · intro cs q r h
      rcases hsw : skipWs cs with _ | ⟨c, rr⟩
      · rw [show parseMembers (f + 1) cs = none from by simp only [parseMembers, hsw]] at h
        simp at h
      · by_cases hc : c = '"'
        · subst hc
          rw [show parseMembers (f + 1) cs = (parseStringBody rr).bind fun kp =>
              match skipWs kp.2 with
              | ':' :: r2 =>
                (parseValue f r2).bind fun vp =>
                  match skipWs vp.2 with
                  | ',' :: r3 =>
                    (parseMembers f r3).map fun q2 => (JObj.cons ⟨kp.1⟩ vp.1 q2.1, q2.2)
                  | '}' :: r3 => some (JObj.cons ⟨kp.1⟩ vp.1 .nil, r3)
                  | _ => none
              | _ => none from by simp only [parseMembers, hsw]] at h
          rcases hps : parseStringBody rr with _ | ⟨kp⟩ <;> rw [hps] at h
          · simp at h
          · replace h : (match skipWs kp.2 with
              | ':' :: r2 =>
                (parseValue f r2).bind fun vp =>
                  match skipWs vp.2 with
                  | ',' :: r3 =>
                    (parseMembers f r3).map fun q2 => (JObj.cons ⟨kp.1⟩ vp.1 q2.1, q2.2)
                  | '}' :: r3 => some (JObj.cons ⟨kp.1⟩ vp.1 .nil, r3)
                  | _ => none
              | _ => none) = some (q, r) := h
            rcases hsw2 : skipWs kp.2 with _ | ⟨c2, r2⟩ <;> rw [hsw2] at h
            · simp at h
            · by_cases hc2 : c2 = ':'
              · subst hc2
                replace h : ((parseValue f r2).bind fun vp =>
                    match skipWs vp.2 with
                    | ',' :: r3 =>
                      (parseMembers f r3).map fun q2 => (JObj.cons ⟨kp.1⟩ vp.1 q2.1, q2.2)
                    | '}' :: r3 => some (JObj.cons ⟨kp.1⟩ vp.1 .nil, r3)
                    | _ => none) = some (q, r) := h
                rcases hpv : parseValue f r2 with _ | ⟨vp⟩ <;> rw [hpv] at h
                · simp at h
                · have hwv : wfJ vp.1 = true := ihv r2 vp.1 vp.2 (by rw [hpv])
                  replace h : (match skipWs vp.2 with
                    | ',' :: r3 =>
                      (parseMembers f r3).map fun q2 => (JObj.cons ⟨kp.1⟩ vp.1 q2.1, q2.2)
                    | '}' :: r3 => some (JObj.cons ⟨kp.1⟩ vp.1 .nil, r3)
                    | _ => none) = some (q, r) := h
                  rcases hsw3 : skipWs vp.2 with _ | ⟨c3, r3⟩ <;> rw [hsw3] at h
                  · simp at h
                  · by_cases hc3 : c3 = ','
                    · subst hc3
                      replace h : (parseMembers f r3).map
                          (fun q2 => (JObj.cons ⟨kp.1⟩ vp.1 q2.1, q2.2)) = some (q, r) := h
                      obtain ⟨a, ha, hqa⟩ := Option.map_eq_some'.mp h
                      obtain ⟨h1, h2⟩ : JObj.cons ⟨kp.1⟩ vp.1 a.1 = q ∧ a.2 = r := by
                        simpa [Prod.ext_iff] using hqa
                      subst h1
                      have := ihm r3 a.1 a.2 (by rw [ha])
                      simp [wfObj, hwv, this]
                    · by_cases hc4 : c3 = '}'
                      · subst hc4
                        replace h : some (JObj.cons ⟨kp.1⟩ vp.1 JObj.nil, r3)
                            = some (q, r) := h
                        obtain ⟨h1, h2⟩ : JObj.cons ⟨kp.1⟩ vp.1 JObj.nil = q ∧ r3 = r := by
                          simpa [Prod.ext_iff] using h
                        subst h1
                        simp [wfObj, hwv]
                      · simp [hc3, hc4] at h
              · simp [hc2] at h
        · rw [show parseMembers (f + 1) cs = none from by
            simp only [parseMembers, hsw]
            simp [hc]] at h
          simp at h

/-- Every value the decoder produces is canonical. -/
theorem decodeJ_wf {s : String} {v : JVal} (h : decodeJ s = some v) : wfJ v = true := by
  unfold decodeJ at h
  rcases hpv : parseValue (s.data.length + 1) s.data with _ | ⟨p⟩ <;> rw [hpv] at h
  · simp at h
  · have := (parser_wf (s.data.length + 1)).1 s.data p.1 p.2 (by rw [hpv])
    simp only [Option.bind] at h
    split at h
    · simp at h
      subst h
      exact this
    · simp at h


/-! ### The template engine

Modelled from the spec: core engine (`minja.hpp` is absent from the source
tree; only its tests and callers are present). The model implements the
lexer (section 4.2), parser (section 4.3) and evaluator (sections 4.4, 4.5)
for the sublanguage exercised by the verified properties: text, output,
comments, whitespace control, `if`, `for` (with per-element filter
condition and `loop` record), `set`, `macro` with defaults, `break`,
`continue`, array literals, the built-in `range`, the `append` method and
the `tojson` filter. -/

inductive ErrKind where
  | syntaxK | nameK | typeK | keyK | valueK | structuralK | recursionK | userK
deriving DecidableEq, Repr

structure Err where
  kind : ErrKind
  msg : String
deriving DecidableEq, Repr

/-- Render-time errors: every kind except compile-time `syntaxK`
(spec section 7: "SyntaxError is compile-time; all others are render-time"). -/
def RunErr := { e : Err // e.kind ≠ ErrKind.syntaxK }

structure Options where
  trim_blocks : Bool := false
  lstrip_blocks : Bool := false
  keep_trailing_newline : Bool := true

inductive TagKind where
  | stmtT | exprT | commentT
deriving DecidableEq, Repr

structure RawTag where
  kind : TagKind
  lMinus : Bool
  inner : List Char
  rMinus : Bool
deriving Repr

inductive RawItem where
  | txt (t : List Char)
  | tag (g : RawTag)
deriving Repr

def isHwsC (c : Char) : Bool := c == ' ' || c == Char.ofNat 9

/-- Reads a tag body up to its close marker `cc` followed by the closing
brace, detecting a trailing whitespace-control minus. -/
def readTag (cc : Char) : List Char → List Char → Option (List Char × Bool × List Char)
  | [], _ => none
  | c :: rest, acc =>
    match rest with
    | c1 :: '}' :: rest2 =>
      if c = '-' ∧ c1 = cc then some (acc.reverse, true, rest2)
      else if c = cc ∧ c1 = '}' then
        match rest with
        | _ :: rest1 => some (acc.reverse, false, rest1)
        | [] => none
      else readTag cc rest (c :: acc)
    | _ =>
      match rest with
      | c1 :: rest1 =>
        if c = cc ∧ c1 = '}' then some (acc.reverse, false, rest1)
        else readTag cc rest (c :: acc)
      | [] => none

def tagName (k : TagKind) : String :=
  match k with
  | .stmtT => "statement"
  | .exprT => "expression"
  | .commentT => "comment"

def lexOne (k : TagKind) (cc : Char) (rest : List Char) :
    Except Err (RawTag × List Char) :=
  let (lm, body) := match rest with
    | '-' :: r2 => (true, r2)
    | _ => (false, rest)
  match readTag cc body [] with
  | some (inner, rm, rest2) => .ok (⟨k, lm, inner, rm⟩, rest2)
  | none =>
    if k = .commentT then .error ⟨.syntaxK, "Missing end of comment tag"⟩
    else .error ⟨.syntaxK, "Unterminated " ++ tagName k ++ " tag"⟩

def lexRaw : Nat → List Char → List Char → Except Err (List RawItem)
  | 0, _, _ => .error ⟨.syntaxK, "lexer fuel exhausted"⟩
  | _ + 1, [], acc => .ok [.txt acc.reverse]
  | f + 1, '{' :: '{' :: rest, acc => do
    let (g, rest2) ← lexOne .exprT '}' rest
    let items ← lexRaw f rest2 []
    return .txt acc.reverse :: .tag g :: items
  | f + 1, '{' :: '%' :: rest, acc => do
    let (g, rest2) ← lexOne .stmtT '%' rest
    let items ← lexRaw f rest2 []
    return .txt acc.reverse :: .tag g :: items
  | f + 1, '{' :: '#' :: rest, acc => do
    let (g, rest2) ← lexOne .commentT '#' rest
    let items ← lexRaw f rest2 []
    return .txt acc.reverse :: .tag g :: items
  | f + 1, c :: rest, acc => lexRaw f rest (c :: acc)

def pairTags : List RawItem → List (RawTag × List Char)
  | .tag g :: .txt t :: rest => (g, t) :: pairTags rest
  | .tag g :: rest => (g, []) :: pairTags rest
  | _ => []

def pairUp : List RawItem → List Char × List (RawTag × List Char)
  | .txt t :: rest => (t, pairTags rest)
  | items => ([], pairTags items)

def dropTrailingWs (t : List Char) : List Char :=
  (skipWs t.reverse).reverse

/-- Splits off the trailing horizontal-whitespace run. -/
def splitTrailingHws (t : List Char) : List Char × List Char :=
  let rrev := t.reverse
  let run := rrev.takeWhile isHwsC
  ((rrev.dropWhile isHwsC).reverse, run.reverse)

def lastIsNl (t : List Char) : Bool :=
  match t.reverse with
  | c :: _ => c == Char.ofNat 10
  | [] => false

/-- Modelled from the spec (section 4.2): a leading `-` trims the prior text
run's trailing whitespace including newlines; otherwise `lstrip_blocks`
strips horizontal whitespace before a statement/comment open back to line
start (only when the run reaches a line start in the source). -/
def stripEnd (opts : Options) (first : Bool) (t : List Char) (g : RawTag) : List Char :=
  if g.lMinus then dropTrailingWs t
  else if opts.lstrip_blocks ∧ g.kind ≠ .exprT then
    let (pre, _) := splitTrailingHws t
    if pre = [] then (if first then [] else t)
    else if lastIsNl pre then pre
    else t
  else t

/-- Modelled from the spec (section 4.2): a trailing `-` trims the following
run's leading whitespace; otherwise `trim_blocks` strips one newline after a
statement/comment close. -/
def stripStart (opts : Options) (t : List Char) (g : RawTag) : List Char :=
  if g.rMinus then skipWs t
  else if opts.trim_blocks ∧ g.kind ≠ .exprT then
    match t with
    | c :: rest => if c = Char.ofNat 10 then rest else t
    | [] => []
  else t

inductive Seg where
  | text (t : List Char)
  | stmtS (inner : List Char)
  | exprS (inner : List Char)
deriving Repr

def tagSegs (g : RawTag) : List Seg :=
  match g.kind with
  | .stmtT => [.stmtS g.inner]
  | .exprT => [.exprS g.inner]
  | .commentT => []

def applyStart (opts : Options) : Option RawTag → List Char → List Char
  | none, t => t
  | some g, t => stripStart opts t g

def applyWs (opts : Options) : Bool → Option RawTag → List Char → List (RawTag × List Char) → List Seg
  | _, prev, t, [] => [.text (applyStart opts prev t)]
  | first, prev, t, (g, t2) :: rest =>
    .text (applyStart opts prev (stripEnd opts first t g)) :: tagSegs g
      ++ applyWs opts false (some g) t2 rest

/-- Modelled from the spec (section 4.2): the lexer, splitting raw template
text into text/statement/expression segments and applying the
whitespace-control rules. -/
def lexTemplate (opts : Options) (src : String) : Except Err (List Seg) := do
  let src0 := if opts.keep_trailing_newline then src.data
    else match src.data.reverse with
      | c :: rest => if c = Char.ofNat 10 then rest.reverse else src.data
      | [] => []
  let items ← lexRaw (src0.length + 1) src0 []
  let (t0, ps) := pairUp items
  return applyWs opts true none t0 ps


/-! ### Tag tokenizer (spec section 4.3) -/

inductive Tok where
  | id (s : String)
  | num (n : Nat)
  | str (s : String)
  | op (s : String)
deriving DecidableEq, Repr

def isAlphaC (c : Char) : Bool :=
  (65 ≤ c.toNat && c.toNat ≤ 90) || (97 ≤ c.toNat && c.toNat ≤ 122) || c == '_'

def isAlnumC (c : Char) : Bool := isAlphaC c || isDigitC c

def twoCharOp (a b : Char) : Bool :=
  (a == '=' && b == '=') || (a == '!' && b == '=') || (a == '<' && b == '=')
    || (a == '>' && b == '=') || (a == '/' && b == '/') || (a == '*' && b == '*')

def isPunctC (c : Char) : Bool :=
  c == '(' || c == ')' || c == '[' || c == ']' || c == '{' || c == '}' || c == ','
    || c == ':' || c == '.' || c == '|' || c == '+' || c == '-' || c == '*'
    || c == '/' || c == '%' || c == '=' || c == '~' || c == '<' || c == '>' || c == '!'

def tokenize : Nat → List Char → Except Err (List Tok)
  | 0, _ => .error ⟨.syntaxK, "tokenizer fuel exhausted"⟩
  | _ + 1, [] => .ok []
  | f + 1, c :: rest =>
    if isWsC c then tokenize f rest
    else if isAlphaC c then
      let name : List Char := c :: rest.takeWhile isAlnumC
      (tokenize f (rest.dropWhile isAlnumC)).map (.id ⟨name⟩ :: ·)
    else if isDigitC c then
      match readDigits (c :: rest) 0 with
      | (n, rest2) => (tokenize f rest2).map (.num n :: ·)
    else if c = sq ∨ c = '"' then
      let body := rest.takeWhile (fun d => d != c)
      match rest.dropWhile (fun d => d != c) with
      | _ :: rest3 => (tokenize f rest3).map (.str ⟨body⟩ :: ·)
      | [] => .error ⟨.syntaxK, "Unterminated string literal"⟩
    else
      match rest with
      | c2 :: rest2 =>
        if twoCharOp c c2 then (tokenize f rest2).map (.op ⟨[c, c2]⟩ :: ·)
        else if isPunctC c then (tokenize f rest).map (.op ⟨[c]⟩ :: ·)
        else .error ⟨.syntaxK, "Unexpected character in tag"⟩
      | [] =>
        if isPunctC c then (tokenize f []).map (.op ⟨[c]⟩ :: ·)
        else .error ⟨.syntaxK, "Unexpected character in tag"⟩

/-! ### AST (spec section 3) -/

inductive BinOp where
  | add | sub | mul | divO | modO | eqO | neO | ltO | leO | gtO | geO | concat
deriving DecidableEq, Repr

inductive Expr where
  | nullE | trueE | falseE
  | intE (n : Nat)
  | strE (s : String)
  | varE (name : String)
  | arrE (xs : List Expr)
  | binE (op : BinOp) (a b : Expr)
  | negE (a : Expr)
  | notE (a : Expr)
  | andE (a b : Expr)
  | orE (a b : Expr)
  | getattrE (e : Expr) (name : String)
  | callE (fn : Expr) (args : List Expr)
  | methodE (e : Expr) (name : String) (args : List Expr)
  | filterE (e : Expr) (name : String)
deriving Repr

inductive Stmt where
  | textS (s : String)
  | outputS (e : Expr)
  | ifS (c : Expr) (thenB : List Stmt) (elseB : List Stmt)
  | forS (v : String) (iter : Expr) (cond : Option Expr) (body : List Stmt)
      (elseB : List Stmt)
  | setS (name : String) (e : Expr)
  | macroDefS (name : String) (params : List (String × Option Expr)) (body : List Stmt)
  | breakS
  | continueS
deriving Repr

/-! ### Expression parser (spec section 4.3 precedence chain) -/

def expectOp (o : String) : List Tok → Except Err (List Tok)
  | .op o2 :: ts => if o2 = o then .ok ts else .error ⟨.syntaxK, "Expected " ++ o⟩
  | _ => .error ⟨.syntaxK, "Expected " ++ o⟩

mutual

def parseOrF : Nat → List Tok → Except Err (Expr × List Tok)
  | 0, _ => .error ⟨.syntaxK, "expression too deep"⟩
  | f + 1, ts => do
    let (a, ts1) ← parseAndF f ts
    parseOrRest f a ts1

def parseOrRest : Nat → Expr → List Tok → Except Err (Expr × List Tok)
  | 0, _, _ => .error ⟨.syntaxK, "expression too deep"⟩
  | f + 1, a, .id "or" :: ts => do
    let (b, ts1) ← parseAndF f ts
    parseOrRest f (.orE a b) ts1
  | _ + 1, a, ts => .ok (a, ts)

def parseAndF : Nat → List Tok → Except Err (Expr × List Tok)
  | 0, _ => .error ⟨.syntaxK, "expression too deep"⟩
  | f + 1, ts => do
    let (a, ts1) ← parseNotF f ts
    parseAndRest f a ts1

def parseAndRest : Nat → Expr → List Tok → Except Err (Expr × List Tok)
  | 0, _, _ => .error ⟨.syntaxK, "expression too deep"⟩
  | f + 1, a, .id "and" :: ts => do
    let (b, ts1) ← parseNotF f ts
    parseAndRest f (.andE a b) ts1
  | _ + 1, a, ts => .ok (a, ts)

def parseNotF : Nat → List Tok → Except Err (Expr × List Tok)
  | 0, _ => .error ⟨.syntaxK, "expression too deep"⟩
  | f + 1, .id "not" :: ts => do
    let (a, ts1) ← parseNotF f ts
    return (.notE a, ts1)
  | f + 1, ts => parseCmpF f ts

def parseCmpF : Nat → List Tok → Except Err (Expr × List Tok)
  | 0, _ => .error ⟨.syntaxK, "expression too deep"⟩
  | f + 1, ts => do
    let (a, ts1) ← parseAddF f ts
    match ts1 with
    | .op "==" :: ts2 => do
      let (b, ts3) ← parseAddF f ts2
      return (.binE .eqO a b, ts3)
    | .op "!=" :: ts2 => do
      let (b, ts3) ← parseAddF f ts2
      return (.binE .neO a b, ts3)
    | .op "<=" :: ts2 => do
      let (b, ts3) ← parseAddF f ts2
      return (.binE .leO a b, ts3)
    | .op ">=" :: ts2 => do
      let (b, ts3) ← parseAddF f ts2
      return (.binE .geO a b, ts3)
    | .op "<" :: ts2 => do
      let (b, ts3) ← parseAddF f ts2
      return (.binE .ltO a b, ts3)
    | .op ">" :: ts2 => do
      let (b, ts3) ← parseAddF f ts2
      return (.binE .gtO a b, ts3)
    | _ => .ok (a, ts1)

def parseAddF : Nat → List Tok → Except Err (Expr × List Tok)
  | 0, _ => .error ⟨.syntaxK, "expression too deep"⟩
  | f + 1, ts => do
    let (a, ts1) ← parseMulF f ts
    parseAddRest f a ts1

def parseAddRest : Nat → Expr → List Tok → Except Err (Expr × List Tok)
  | 0, _, _ => .error ⟨.syntaxK, "expression too deep"⟩
  | f + 1, a, .op "+" :: ts => do
    let (b, ts1) ← parseMulF f ts
    parseAddRest f (.binE .add a b) ts1
  | f + 1, a, .op "-" :: ts => do
    let (b, ts1) ← parseMulF f ts
    parseAddRest f (.binE .sub a b) ts1
  | f + 1, a, .op "~" :: ts => do
    let (b, ts1) ← parseMulF f ts
    parseAddRest f (.binE .concat a b) ts1
  | _ + 1, a, ts => .ok (a, ts)

def parseMulF : Nat → List Tok → Except Err (Expr × List Tok)
  | 0, _ => .error ⟨.syntaxK, "expression too deep"⟩
  | f + 1, ts => do
    let (a, ts1) ← parseUnaryF f ts
    parseMulRest f a ts1

def parseMulRest : Nat → Expr → List Tok → Except Err (Expr × List Tok)
  | 0, _, _ => .error ⟨.syntaxK, "expression too deep"⟩
  | f + 1, a, .op "*" :: ts => do
    let (b, ts1) ← parseUnaryF f ts
    parseMulRest f (.binE .mul a b) ts1
  | f + 1, a, .op "/" :: ts => do
    let (b, ts1) ← parseUnaryF f ts
    parseMulRest f (.binE .divO a b) ts1
  | f + 1, a, .op "%" :: ts => do
    let (b, ts1) ← parseUnaryF f ts
    parseMulRest f (.binE .modO a b) ts1
  | _ + 1, a, ts => .ok (a, ts)

def parseUnaryF : Nat → List Tok → Except Err (Expr × List Tok)
  | 0, _ => .error ⟨.syntaxK, "expression too deep"⟩
  | f + 1, .op "-" :: ts => do
    let (a, ts1) ← parseUnaryF f ts
    return (.negE a, ts1)
  | f + 1, ts => parsePostF f ts

def parsePostF : Nat → List Tok → Except Err (Expr × List Tok)
  | 0, _ => .error ⟨.syntaxK, "expression too deep"⟩
  | f + 1, ts => do
    let (a, ts1) ← parseAtomF f ts
    parsePostRest f a ts1

def parsePostRest : Nat → Expr → List Tok → Except Err (Expr × List Tok)
  | 0, _, _ => .error ⟨.syntaxK, "expression too deep"⟩
  | f + 1, a, .op "." :: .id name :: .op "(" :: ts => do
    let (args, ts1) ← parseArgsF f ts
    parsePostRest f (.methodE a name args) ts1
  | f + 1, a, .op "." :: .id name :: ts => parsePostRest f (.getattrE a name) ts
  | f + 1, a, .op "(" :: ts => do
    let (args, ts1) ← parseArgsF f ts
    parsePostRest f (.callE a args) ts1
  | f + 1, a, .op "|" :: .id name :: ts => parsePostRest f (.filterE a name) ts
  | _ + 1, a, ts => .ok (a, ts)

def parseArgsF : Nat → List Tok → Except Err (List Expr × List Tok)
  | 0, _ => .error ⟨.syntaxK, "expression too deep"⟩
  | f + 1, .op ")" :: ts => .ok ([], ts)
  | f + 1, ts => do
    let (a, ts1) ← parseOrF f ts
    match ts1 with
    | .op "," :: ts2 => do
      let (args, ts3) ← parseArgsF f ts2
      return (a :: args, ts3)
    | .op ")" :: ts2 => .ok ([a], ts2)
    | _ => .error ⟨.syntaxK, "Expected , or ) in argument list"⟩

def parseAtomF : Nat → List Tok → Except Err (Expr × List Tok)
  | 0, _ => .error ⟨.syntaxK, "expression too deep"⟩
  | f + 1, .num n :: ts => .ok (.intE n, ts)
  | f + 1, .str s :: ts => .ok (.strE s, ts)
  | f + 1, .id name :: ts =>
    if name = "True" ∨ name = "true" then .ok (.trueE, ts)
    else if name = "False" ∨ name = "false" then .ok (.falseE, ts)
    else if name = "None" ∨ name = "none" then .ok (.nullE, ts)
    else .ok (.varE name, ts)
  | f + 1, .op "(" :: ts => do
    let (a, ts1) ← parseOrF f ts
    let ts2 ← expectOp ")" ts1
    return (a, ts2)
  | f + 1, .op "[" :: ts => parseArrLit f ts
  | _ + 1, _ => .error ⟨.syntaxK, "Expected expression"⟩

def parseArrLit : Nat → List Tok → Except Err (Expr × List Tok)
  | 0, _ => .error ⟨.syntaxK, "expression too deep"⟩
  | f + 1, .op "]" :: ts => .ok (.arrE [], ts)
  | f + 1, ts => do
    let (a, ts1) ← parseOrF f ts
    parseArrRest f [a] ts1

def parseArrRest : Nat → List Expr → List Tok → Except Err (Expr × List Tok)
  | 0, _, _ => .error ⟨.syntaxK, "expression too deep"⟩
  | f + 1, acc, .op "," :: ts => do
    let (a, ts1) ← parseOrF f ts
    parseArrRest f (acc ++ [a]) ts1
  | _ + 1, acc, .op "]" :: ts => .ok (.arrE acc, ts)
  | _ + 1, _, _ => .error ⟨.syntaxK, "Expected , or ] in array literal"⟩

end

def parseExprAll (f : Nat) (inner : List Char) : Except Err Expr := do
  let toks ← tokenize (inner.length + 1) inner
  let (e, ts) ← parseOrF f toks
  if ts = [] then return e
  else .error ⟨.syntaxK, "Unexpected tokens after expression"⟩


/-! ### Statement parser (spec section 4.3) -/

def parseParams : Nat → List Tok → Except Err (List (String × Option Expr) × List Tok)
  | 0, _ => .error ⟨.syntaxK, "parameter list too deep"⟩
  | _ + 1, .op ")" :: ts => .ok ([], ts)
  | f + 1, .id pname :: ts => do
    let (dflt, ts1) ← match ts with
      | .op "=" :: ts2 => do
        let (e, ts3) ← parseOrF f ts2
        pure (some e, ts3)
      | _ => pure (none, ts)
    match ts1 with
    | .op "," :: ts2 => do
      let (ps, ts3) ← parseParams f ts2
      return ((pname, dflt) :: ps, ts3)
    | .op ")" :: ts2 => .ok ([(pname, dflt)], ts2)
    | _ => .error ⟨.syntaxK, "Expected , or ) in macro parameter list"⟩
  | _ + 1, _ => .error ⟨.syntaxK, "Expected parameter name"⟩

mutual

def parseStmtsF : Nat → List Seg → List String → String →
    Except Err (List Stmt × List Tok × List Seg × Option String)
  | 0, _, _, _ => .error ⟨.syntaxK, "template too deep"⟩
  | _ + 1, [], terms, ctx =>
    if terms = [] then .ok ([], [], [], none)
    else .error ⟨.syntaxK, "Unterminated " ++ ctx⟩
  | f + 1, .text t :: rest, terms, ctx => do
    let (sts, lts, rsegs, term) ← parseStmtsF f rest terms ctx
    return (.textS ⟨t⟩ :: sts, lts, rsegs, term)
  | f + 1, .exprS inner :: rest, terms, ctx => do
    let toks ← tokenize (inner.length + 1) inner
    let (e, ts) ← parseOrF f toks
    if ts = [] then do
      let (sts, lts, rsegs, term) ← parseStmtsF f rest terms ctx
      return (.outputS e :: sts, lts, rsegs, term)
    else .error ⟨.syntaxK, "Unexpected tokens after expression"⟩
  | f + 1, .stmtS inner :: rest, terms, ctx => do
    let toks ← tokenize (inner.length + 1) inner
    match toks with
    | .id kw :: ts =>
      if kw ∈ terms then .ok ([], ts, rest, some kw)
      else do
        let (st, rest1) ← parseOneStmt f kw ts rest
        let (sts, lts, rsegs, term) ← parseStmtsF f rest1 terms ctx
        return (st :: sts, lts, rsegs, term)
    | _ => .error ⟨.syntaxK, "Expected statement keyword"⟩

def parseOneStmt : Nat → String → List Tok → List Seg → Except Err (Stmt × List Seg)
  | 0, _, _, _ => .error ⟨.syntaxK, "template too deep"⟩
  | f + 1, "if", ts, rest => do
    let (c, ts1) ← parseOrF f ts
    if ts1 = [] then parseIfBody f c rest
    else .error ⟨.syntaxK, "Unexpected tokens after if condition"⟩
  | f + 1, "for", ts, rest =>
    (match ts with
    | .id v :: .id "in" :: ts1 => do
      let (iter, ts2) ← parseOrF f ts1
      let (cond, ts3) ← match ts2 with
        | .id "if" :: ts2b => do
          let (c, ts3b) ← parseOrF f ts2b
          pure (some c, ts3b)
        | _ => pure (none, ts2)
      if ts3 = [] then do
        let (body, _, rest1, term) ← parseStmtsF f rest ["else", "endfor"] "for"
        match term with
        | some "endfor" => return (.forS v iter cond body [], rest1)
        | some "else" => do
          let (elseB, _, rest2, _) ← parseStmtsF f rest1 ["endfor"] "for"
          return (.forS v iter cond body elseB, rest2)
        | _ => .error ⟨.syntaxK, "Unterminated for"⟩
      else .error ⟨.syntaxK, "Unexpected tokens in for statement"⟩
    | _ => .error ⟨.syntaxK, "Expected loop variable in for statement"⟩)
  | f + 1, "set", ts, rest =>
    (match ts with
    | .id name :: .op "=" :: ts1 => do
      let (e, ts2) ← parseOrF f ts1
      if ts2 = [] then return (.setS name e, rest)
      else .error ⟨.syntaxK, "Unexpected tokens after set"⟩
    | _ => .error ⟨.syntaxK, "Expected variable name in set statement"⟩)
  | f + 1, "macro", ts, rest =>
    (match ts with
    | .id name :: .op "(" :: ts1 => do
      let (params, ts2) ← parseParams f ts1
      if ts2 = [] then do
        let (body, _, rest1, term) ← parseStmtsF f rest ["endmacro"] "macro"
        match term with
        | some _ => return (.macroDefS name params body, rest1)
        | none => .error ⟨.syntaxK, "Unterminated macro"⟩
      else .error ⟨.syntaxK, "Unexpected tokens after macro parameters"⟩
    | _ => .error ⟨.syntaxK, "Expected macro name"⟩)
  | _ + 1, "break", ts, rest =>
    if ts = [] then .ok (.breakS, rest) else .error ⟨.syntaxK, "Unexpected tokens after break"⟩
  | _ + 1, "continue", ts, rest =>
    if ts = [] then .ok (.continueS, rest)
    else .error ⟨.syntaxK, "Unexpected tokens after continue"⟩
  | _ + 1, kw, _, _ =>
    if kw = "else" ∨ kw = "elif" ∨ kw = "endif" ∨ kw = "endfor" ∨ kw = "endmacro"
        ∨ kw = "endfilter" ∨ kw = "endset" ∨ kw = "endgeneration" then
      .error ⟨.syntaxK, "Unexpected " ++ kw⟩
    else .error ⟨.syntaxK, "Unsupported statement: " ++ kw⟩

def parseIfBody : Nat → Expr → List Seg → Except Err (Stmt × List Seg)
  | 0, _, _ => .error ⟨.syntaxK, "template too deep"⟩
  | f + 1, c, rest => do
    let (thenB, lts, rest1, term) ← parseStmtsF f rest ["elif", "else", "endif"] "if"
    match term with
    | some "endif" => return (.ifS c thenB [], rest1)
    | some "else" => do
      let (elseB, _, rest2, term2) ← parseStmtsF f rest1 ["endif"] "if"
      match term2 with
      | some _ => return (.ifS c thenB elseB, rest2)
      | none => .error ⟨.syntaxK, "Unterminated if"⟩
    | some "elif" => do
      let (c2, ts1) ← parseOrF f lts
      if ts1 = [] then do
        let (inner, rest2) ← parseIfBody f c2 rest1
        return (.ifS c thenB [inner], rest2)
      else .error ⟨.syntaxK, "Unexpected tokens after elif condition"⟩
    | _ => .error ⟨.syntaxK, "Unterminated if"⟩

end

/-- Modelled from the spec (section 6): `compile(source, options)`; the
compile phase is the lexer plus the parser, yielding the root statement
sequence or a SyntaxError. -/
def parseTemplate (opts : Options) (src : String) : Except Err (List Stmt) := do
  let segs ← lexTemplate opts src
  let (sts, _, rsegs, term) ← parseStmtsF (src.data.length + 16) segs [] "template"
  match term, rsegs with
  | none, [] => return sts
  | _, _ => .error ⟨.syntaxK, "Unexpected trailing content"⟩


/-! ### Runtime values, heap and scope chain (spec sections 3, 4.4)

Modelled from the spec: Arrays/Objects are heap cells referenced by
address, so aliased bindings share one mutable container (reference
semantics); Contexts are a chain of frames, and macros capture their
defining frame by reference (lexical closure). -/

inductive Val where
  | vnull
  | vbool (b : Bool)
  | vint (n : Int)
  | vdec (m : Int) (e : Nat)
  | vstr (s : String)
  | vref (a : Nat)
  | vclosure (params : List (String × Option Expr)) (body : List Stmt) (defFrame : Nat)
  | vbuiltin (name : String)
deriving Repr

inductive Cell where
  | arrC (xs : List Val)
  | objC (kvs : List (String × Val))
deriving Repr

structure Frame where
  vars : List (String × Val)
  parent : Option Nat
deriving Repr

structure EState where
  cells : List Cell
  frames : List Frame
deriving Repr

inductive Flow where
  | normal | brk | cont
deriving DecidableEq, Repr

def typeErr (msg : String) : RunErr := ⟨⟨.typeK, msg⟩, by simp⟩

def nameErr (msg : String) : RunErr := ⟨⟨.nameK, msg⟩, by simp⟩

def valueErr (msg : String) : RunErr := ⟨⟨.valueK, msg⟩, by simp⟩

def structuralErr (msg : String) : RunErr := ⟨⟨.structuralK, msg⟩, by simp⟩

def recursionErr (msg : String) : RunErr := ⟨⟨.recursionK, msg⟩, by simp⟩

def alloc (st : EState) (c : Cell) : Nat × EState :=
  (st.cells.length, { st with cells := st.cells ++ [c] })

def getCell (st : EState) (a : Nat) : Option Cell := st.cells[a]?

def setCell (st : EState) (a : Nat) (c : Cell) : EState :=
  { st with cells := st.cells.set a c }

def newFrame (st : EState) (vars : List (String × Val)) (parent : Option Nat) :
    Nat × EState :=
  (st.frames.length, { st with frames := st.frames ++ [⟨vars, parent⟩] })

def assocGet : List (String × Val) → String → Option Val
  | [], _ => none
  | (k2, v2) :: rest, k => if k2 = k then some v2 else assocGet rest k

def assocSet : List (String × Val) → String → Val → List (String × Val)
  | [], k, v => [(k, v)]
  | (k2, v2) :: rest, k, v =>
    if k2 = k then (k, v) :: rest else (k2, v2) :: assocSet rest k v

/-- Lookup walking the scope chain innermost to outermost (spec 4.4). -/
def lookupVar : Nat → EState → Nat → String → Option Val
  | 0, _, _, _ => none
  | f + 1, st, i, name =>
    match st.frames[i]? with
    | none => none
    | some fr =>
      match assocGet fr.vars name with
      | some v => some v
      | none =>
        match fr.parent with
        | some p => lookupVar f st p name
        | none => none

/-- `set` writes into the innermost scope (spec 4.4). -/
def setVar (st : EState) (i : Nat) (name : String) (v : Val) : EState :=
  match st.frames[i]? with
  | some fr => { st with frames := st.frames.set i { fr with vars := assocSet fr.vars name v } }
  | none => st

/-- Truthiness: "empty/zero/null/false is falsy" (spec section 3). -/
def truthy (st : EState) (v : Val) : Except RunErr Bool :=
  match v with
  | .vnull => .ok false
  | .vbool b => .ok b
  | .vint n => .ok (decide (n ≠ 0))
  | .vdec m _ => .ok (decide (m ≠ 0))
  | .vstr s => .ok (decide (s ≠ ""))
  | .vref a =>
    match getCell st a with
    | some (.arrC xs) => .ok (!xs.isEmpty)
    | some (.objC kvs) => .ok (!kvs.isEmpty)
    | none => .error (valueErr "dangling reference")
  | .vclosure _ _ _ => .ok true
  | .vbuiltin _ => .ok true

def joinComma : List (List Char) → List Char
  | [] => []
  | [x] => x
  | x :: rest => x ++ ',' :: ' ' :: joinComma rest

/-- Heap-aware stringification of a value; `json = true` is the to-JSON mode,
`json = false` the nested display (repr) mode (spec section 4.1). The fuel
bounds the reference depth (recursion guard, spec section 5). -/
def dumpVal (json : Bool) : Nat → EState → Val → Except RunErr (List Char)
  | 0, _, _ => .error (recursionErr "serialization too deep")
  | _ + 1, _, .vnull => .ok (if json then ['n', 'u', 'l', 'l'] else ['N', 'o', 'n', 'e'])
  | _ + 1, _, .vbool true => .ok (if json then ['t', 'r', 'u', 'e'] else ['T', 'r', 'u', 'e'])
  | _ + 1, _, .vbool false =>
    .ok (if json then ['f', 'a', 'l', 's', 'e'] else ['F', 'a', 'l', 's', 'e'])
  | _ + 1, _, .vint n => .ok (intChars n)
  | _ + 1, _, .vdec m e => .ok (decChars m e)
  | _ + 1, _, .vstr s =>
    .ok (if json then '"' :: (escJ s.data ++ ['"']) else sq :: (escR s.data ++ [sq]))
  | f + 1, st, .vref a =>
    match getCell st a with
    | some (.arrC xs) => do
      let elems ← xs.mapM (fun x => dumpVal json f st x)
      return '[' :: (joinComma elems ++ [']'])
    | some (.objC kvs) => do
      let elems ← kvs.mapM (fun kv => do
        let c ← dumpVal json f st kv.2
        let kc := if json then '"' :: (escJ kv.1.data ++ ['"'])
          else sq :: (escR kv.1.data ++ [sq])
        return kc ++ ':' :: ' ' :: c)
      return '{' :: (joinComma elems ++ ['}'])
    | none => .error (valueErr "dangling reference")
  | _ + 1, _, .vclosure _ _ _ => .error (typeErr "cannot serialize callable")
  | _ + 1, _, .vbuiltin _ => .error (typeErr "cannot serialize callable")
termination_by structural f _ _ => f

/-- Top-level display stringification: bare strings, repr for the rest
(spec section 4.1). -/
def displayVal (st : EState) (v : Val) : Except RunErr String :=
  match v with
  | .vstr s => .ok s
  | _ => (dumpVal false (st.cells.length + 1) st v).map String.mk

def rangeList : Nat → Int → Int → Int → List Int
  | 0, _, _, _ => []
  | f + 1, start, stop, step =>
    if (step > 0 ∧ start < stop) ∨ (step < 0 ∧ start > stop) then
      start :: rangeList f (start + step) stop step
    else []

def applyRange (args : List Val) (st : EState) : Except RunErr (Val × EState) := do
  let (start, stop, step) ← match args with
    | [.vint n] => pure ((0 : Int), n, (1 : Int))
    | [.vint a, .vint b] => pure (a, b, (1 : Int))
    | [.vint a, .vint b, .vint c] => pure (a, b, c)
    | _ => .error (typeErr "range expects integer arguments")
  if step = 0 then .error (valueErr "range step must not be zero")
  else
    let xs := rangeList ((stop - start).natAbs + 1) start stop step
    let (a, st1) := alloc st (.arrC (xs.map Val.vint))
    return (.vref a, st1)

def iterElems (st : EState) (v : Val) : Except RunErr (List Val) :=
  match v with
  | .vref a =>
    match getCell st a with
    | some (.arrC xs) => .ok xs
    | some (.objC kvs) => .ok (kvs.map fun kv => Val.vstr kv.1)
    | none => .error (valueErr "dangling reference")
  | .vstr s => .ok (s.data.map fun c => Val.vstr ⟨[c]⟩)
  | _ => .error (typeErr "object is not iterable")

mutual

def valEq : Nat → EState → Val → Val → Except RunErr Bool
  | 0, _, _, _ => .error (recursionErr "comparison too deep")
  | f + 1, st, a, b =>
    match a, b with
    | .vnull, .vnull => .ok true
    | .vbool x, .vbool y => .ok (x == y)
    | .vint x, .vint y => .ok (x == y)
    | .vdec mx ex, .vdec my ey => .ok (mx == my && ex == ey)
    | .vstr x, .vstr y => .ok (x == y)
    | .vref x, .vref y =>
      match getCell st x, getCell st y with
      | some (.arrC xs), some (.arrC ys) => valEqList f st xs ys
      | some (.objC xs), some (.objC ys) => valEqObj f st xs ys
      | _, _ => .ok false
    | _, _ => .ok false

def valEqList : Nat → EState → List Val → List Val → Except RunErr Bool
  | 0, _, _, _ => .error (recursionErr "comparison too deep")
  | _ + 1, _, [], [] => .ok true
  | f + 1, st, x :: xs, y :: ys => do
    let h ← valEq f st x y
    if h then valEqList f st xs ys else pure false
  | _ + 1, _, _, _ => .ok false

def valEqObj : Nat → EState → List (String × Val) → List (String × Val) →
    Except RunErr Bool
  | 0, _, _, _ => .error (recursionErr "comparison too deep")
  | _ + 1, _, [], [] => .ok true
  | f + 1, st, (k1, x) :: xs, (k2, y) :: ys =>
    if k1 = k2 then do
      let h ← valEq f st x y
      if h then valEqObj f st xs ys else pure false
    else pure false
  | _ + 1, _, _, _ => .ok false

end

/-- Binary operators with int semantics and structural equality
(spec section 4.1). -/
def applyBin (op : BinOp) (a b : Val) (st : EState) : Except RunErr (Val × EState) :=
  match op, a, b with
  | .add, .vint x, .vint y => .ok (.vint (x + y), st)
  | .add, .vstr x, .vstr y => .ok (.vstr (x ++ y), st)
  | .sub, .vint x, .vint y => .ok (.vint (x - y), st)
  | .mul, .vint x, .vint y => .ok (.vint (x * y), st)
  | .divO, .vint x, .vint y =>
    if y = 0 then .error (valueErr "division by zero") else .ok (.vint (x / y), st)
  | .modO, .vint x, .vint y =>
    if y = 0 then .error (valueErr "modulo by zero") else .ok (.vint (x % y), st)
  | .eqO, x, y => (valEq (st.cells.length + 1) st x y).map fun h => (.vbool h, st)
  | .neO, x, y => (valEq (st.cells.length + 1) st x y).map fun h => (.vbool !h, st)
  | .ltO, .vint x, .vint y => .ok (.vbool (decide (x < y)), st)
  | .leO, .vint x, .vint y => .ok (.vbool (decide (x ≤ y)), st)
  | .gtO, .vint x, .vint y => .ok (.vbool (decide (x > y)), st)
  | .geO, .vint x, .vint y => .ok (.vbool (decide (x ≥ y)), st)
  | .concat, x, y => do
    let sx ← displayVal st x
    let sy ← displayVal st y
    return (.vstr (sx ++ sy), st)
  | _, _, _ => .error (typeErr "unsupported operand types")


/-! ### The evaluator (spec section 4.4)

A fueled tree-walking evaluator; fuel is the explicit recursion-depth
counter required by spec section 5, and running out yields a Recursion
error. Break/continue are threaded as a tagged `Flow` result (design note,
spec section 9). Undefined variable lookups are permissive and yield null. -/

mutual

def evalExpr : Nat → Nat → Expr → EState → Except RunErr (Val × EState)
  | 0, _, _, _ => .error (recursionErr "evaluation too deep")
  | _ + 1, _, .nullE, st => .ok (.vnull, st)
  | _ + 1, _, .trueE, st => .ok (.vbool true, st)
  | _ + 1, _, .falseE, st => .ok (.vbool false, st)
  | _ + 1, _, .intE n, st => .ok (.vint n, st)
  | _ + 1, _, .strE s, st => .ok (.vstr s, st)
  | _ + 1, fr, .varE name, st =>
    match lookupVar (st.frames.length + 1) st fr name with
    | some v => .ok (v, st)
    | none => .ok (.vnull, st)
  | f + 1, fr, .arrE xs, st => do
    let (vs, st1) ← evalExprList f fr xs st
    let (a, st2) := alloc st1 (.arrC vs)
    return (.vref a, st2)
  | f + 1, fr, .binE op a b, st => do
    let (va, st1) ← evalExpr f fr a st
    let (vb, st2) ← evalExpr f fr b st1
    applyBin op va vb st2
  | f + 1, fr, .negE a, st => do
    let (va, st1) ← evalExpr f fr a st
    match va with
    | .vint n => return (.vint (-n), st1)
    | _ => .error (typeErr "unary minus expects an integer")
  | f + 1, fr, .notE a, st => do
    let (va, st1) ← evalExpr f fr a st
    let b ← truthy st1 va
    return (.vbool !b, st1)
  | f + 1, fr, .andE a b, st => do
    let (va, st1) ← evalExpr f fr a st
    let ba ← truthy st1 va
    if ba then do
      let (vb, st2) ← evalExpr f fr b st1
      let bb ← truthy st2 vb
      return (.vbool bb, st2)
    else return (.vbool false, st1)
  | f + 1, fr, .orE a b, st => do
    let (va, st1) ← evalExpr f fr a st
    let ba ← truthy st1 va
    if ba then return (.vbool true, st1)
    else do
      let (vb, st2) ← evalExpr f fr b st1
      let bb ← truthy st2 vb
      return (.vbool bb, st2)
  | f + 1, fr, .getattrE e name, st => do
    let (v, st1) ← evalExpr f fr e st
    match v with
    | .vref a =>
      match getCell st1 a with
      | some (.objC kvs) =>
        match assocGet kvs name with
        | some w => return (w, st1)
        | none => return (.vnull, st1)
      | some (.arrC _) => .error (typeErr "array has no attributes")
      | none => .error (valueErr "dangling reference")
    | _ => return (.vnull, st1)
  | f + 1, fr, .callE fn args, st => do
    let (vf, st1) ← evalExpr f fr fn st
    let (vs, st2) ← evalExprList f fr args st1
    applyCall f vf vs st2
  | f + 1, fr, .methodE e name args, st => do
    let (v, st1) ← evalExpr f fr e st
    let (vs, st2) ← evalExprList f fr args st1
    match v, name, vs with
    | .vref a, "append", [w] =>
      (match getCell st2 a with
      | some (.arrC xs) => .ok (.vnull, setCell st2 a (.arrC (xs ++ [w])))
      | some (.objC _) => .error (typeErr "append is not an object method")
      | none => .error (valueErr "dangling reference"))
    | _, _, _ => .error (typeErr ("unknown method: " ++ name))
  | f + 1, fr, .filterE e name, st => do
    let (v, st1) ← evalExpr f fr e st
    if name = "tojson" then
      (dumpVal true (st1.cells.length + 1) st1 v).map fun cs => (.vstr ⟨cs⟩, st1)
    else .error (nameErr ("Unknown filter: " ++ name))
termination_by structural f _ _ _ => f

def evalExprList : Nat → Nat → List Expr → EState → Except RunErr (List Val × EState)
  | 0, _, _, _ => .error (recursionErr "evaluation too deep")
  | _ + 1, _, [], st => .ok ([], st)
  | f + 1, fr, e :: rest, st => do
    let (v, st1) ← evalExpr f fr e st
    let (vs, st2) ← evalExprList f fr rest st1
    return (v :: vs, st2)
termination_by structural f _ _ _ => f

def applyCall : Nat → Val → List Val → EState → Except RunErr (Val × EState)
  | 0, _, _, _ => .error (recursionErr "evaluation too deep")
  | _ + 1, .vbuiltin "range", args, st => applyRange args st
  | f + 1, .vclosure params body defFrame, args, st => do
    let (frNew, st1) := newFrame st [] (some defFrame)
    let st2 ← bindParams f params args frNew st1
    let (out, flow, st3) ← evalStmts f frNew body st2
    match flow with
    | .normal => return (.vstr out, st3)
    | .brk => .error (structuralErr "break outside of a loop")
    | .cont => .error (structuralErr "continue outside of a loop")
  | _ + 1, _, _, _ => .error (typeErr "value is not callable")
termination_by structural f _ _ _ => f

def bindParams : Nat → List (String × Option Expr) → List Val → Nat → EState →
    Except RunErr EState
  | 0, _, _, _, _ => .error (recursionErr "evaluation too deep")
  | _ + 1, [], args, _, st =>
    if args.isEmpty then .ok st else .error (typeErr "too many arguments")
  | f + 1, (pname, dflt) :: ps, args, frNew, st =>
    match args with
    | v :: argsRest => bindParams f ps argsRest frNew (setVar st frNew pname v)
    | [] =>
      match dflt with
      | some de => do
        let (v, st1) ← evalExpr f frNew de st
        bindParams f ps [] frNew (setVar st1 frNew pname v)
      | none => .error (typeErr ("missing argument: " ++ pname))
termination_by structural f _ _ _ _ => f

def evalStmts : Nat → Nat → List Stmt → EState → Except RunErr (String × Flow × EState)
  | 0, _, _, _ => .error (recursionErr "evaluation too deep")
  | _ + 1, _, [], st => .ok ("", .normal, st)
  | f + 1, fr, s :: rest, st => do
    let (out1, flow1, st1) ← evalStmt f fr s st
    match flow1 with
    | .normal => do
      let (out2, flow2, st2) ← evalStmts f fr rest st1
      return (out1 ++ out2, flow2, st2)
    | _ => return (out1, flow1, st1)
termination_by structural f _ _ _ => f

def evalStmt : Nat → Nat → Stmt → EState → Except RunErr (String × Flow × EState)
  | 0, _, _, _ => .error (recursionErr "evaluation too deep")
  | _ + 1, _, .textS s, st => .ok (s, .normal, st)
  | f + 1, fr, .outputS e, st => do
    let (v, st1) ← evalExpr f fr e st
    let s ← displayVal st1 v
    return (s, .normal, st1)
  | f + 1, fr, .ifS c thenB elseB, st => do
    let (cv, st1) ← evalExpr f fr c st
    let b ← truthy st1 cv
    if b then evalStmts f fr thenB st1 else evalStmts f fr elseB st1
  | f + 1, fr, .setS name e, st => do
    let (v, st1) ← evalExpr f fr e st
    return ("", .normal, setVar st1 fr name v)
  | _ + 1, fr, .macroDefS name params body, st =>
    .ok ("", .normal, setVar st fr name (.vclosure params body fr))
  | _ + 1, _, .breakS, st => .ok ("", .brk, st)
  | _ + 1, _, .continueS, st => .ok ("", .cont, st)
  | f + 1, fr, .forS v iter cond body elseB, st => do
    let (it, st1) ← evalExpr f fr iter st
    let elems ← iterElems st1 it
    let (filtered, st2) ← filterElems f fr v cond elems st1
    if filtered.isEmpty then evalStmts f fr elseB st2
    else runLoop f fr v body filtered 0 filtered.length st2
termination_by structural f _ _ _ => f

def filterElems : Nat → Nat → String → Option Expr → List Val → EState →
    Except RunErr (List Val × EState)
  | 0, _, _, _, _, _ => .error (recursionErr "evaluation too deep")
  | _ + 1, _, _, none, elems, st => .ok (elems, st)
  | _ + 1, _, _, some _, [], st => .ok ([], st)
  | f + 1, fr, v, some c, x :: rest, st => do
    let (frT, st1) := newFrame st [(v, x)] (some fr)
    let (cv, st2) ← evalExpr f frT c st1
    let b ← truthy st2 cv
    let (restF, st3) ← filterElems f fr v (some c) rest st2
    return (if b then x :: restF else restF, st3)
termination_by structural f _ _ _ _ _ => f

def runLoop : Nat → Nat → String → List Stmt → List Val → Nat → Nat → EState →
    Except RunErr (String × Flow × EState)
  | 0, _, _, _, _, _, _, _ => .error (recursionErr "evaluation too deep")
  | _ + 1, _, _, _, [], _, _, st => .ok ("", .normal, st)
  | f + 1, fr, v, body, x :: restElems, i, n, st => do
    let (loopAddr, st1) := alloc st (.objC
      [("index", .vint (Int.ofNat (i + 1))), ("index0", .vint (Int.ofNat i)),
       ("revindex", .vint (Int.ofNat (n - i))), ("revindex0", .vint (Int.ofNat (n - i - 1))),
       ("first", .vbool (decide (i = 0))), ("last", .vbool (decide (i + 1 = n))),
       ("length", .vint (Int.ofNat n))])
    let (frI, st2) := newFrame st1 [(v, x), ("loop", .vref loopAddr)] (some fr)
    let (out1, flow1, st3) ← evalStmts f frI body st2
    match flow1 with
    | .brk => return (out1, .normal, st3)
    | _ => do
      let (out2, flow2, st4) ← runLoop f fr v body restElems (i + 1) n st3
      return (out1 ++ out2, flow2, st4)
termination_by structural f _ _ _ _ _ _ _ => f

end

/-! ### Loading caller bindings and the render entry point (spec section 6) -/

mutual

def loadJVal : JVal → EState → Val × EState
  | .jnull, st => (.vnull, st)
  | .jbool b, st => (.vbool b, st)
  | .jint n, st => (.vint n, st)
  | .jdec m e, st => (.vdec m e, st)
  | .jstr s, st => (.vstr s, st)
  | .jarr xs, st =>
    let (vs, st1) := loadJArr xs st
    let (a, st2) := alloc st1 (.arrC vs)
    (.vref a, st2)
  | .jobj kvs, st =>
    let (pairs, st1) := loadJObj kvs st
    let (a, st2) := alloc st1 (.objC pairs)
    (.vref a, st2)

def loadJArr : JArr → EState → List Val × EState
  | .nil, st => ([], st)
  | .cons v tl, st =>
    let (w, st1) := loadJVal v st
    let (ws, st2) := loadJArr tl st1
    (w :: ws, st2)

def loadJObj : JObj → EState → List (String × Val) × EState
  | .nil, st => ([], st)
  | .cons k v tl, st =>
    let (w, st1) := loadJVal v st
    let (ws, st2) := loadJObj tl st1
    ((k, w) :: ws, st2)

end

def renderFuel : Nat := 10000

/-- Modelled from the spec (section 6): `render(compiled-template, bindings)`;
bindings are a JSON object whose entries populate the root scope over a
frame of built-in globals; a `break`/`continue` escaping to the top level is
a Structural error (spec sections 4.4, 7). -/
def renderTemplate (ast : List Stmt) (bindings : JVal) : Except Err String :=
  let st0 : EState := ⟨[], []⟩
  let (frB, st1) := newFrame st0 [("range", .vbuiltin "range")] none
  let (vars, st2) := match bindings with
    | .jobj kvs => loadJObj kvs st1
    | _ => ([], st1)
  let (frRoot, st3) := newFrame st2 vars (some frB)
  match evalStmts renderFuel frRoot ast st3 with
  | .ok (out, .normal, _) => .ok out
  | .ok (_, .brk, _) => .error ⟨.structuralK, "break outside of a loop"⟩
  | .ok (_, .cont, _) => .error ⟨.structuralK, "continue outside of a loop"⟩
  | .error e => .error e.val

/-- Compile then render in one step. -/
def renderString (opts : Options) (src : String) (bindings : JVal) :
    Except Err String := do
  let ast ← parseTemplate opts src
  renderTemplate ast bindings

/-! ### Loading then dumping reproduces the JSON encoding (spec sections 4.1, 6) -/

mutual

/-- Container nesting depth of a JSON value. -/
def depthJ : JVal → Nat
  | .jnull | .jbool _ | .jint _ | .jdec _ _ | .jstr _ => 0
  | .jarr xs => depthArr xs + 1
  | .jobj kvs => depthObj kvs + 1

def depthArr : JArr → Nat
  | .nil => 0
  | .cons v tl => max (depthJ v) (depthArr tl)

def depthObj : JObj → Nat
  | .nil => 0
  | .cons _ v tl => max (depthJ v) (depthObj tl)

end

mutual

/-- Number of heap cells `loadJVal` allocates for a JSON value. -/
def cellsJ : JVal → Nat
  | .jnull | .jbool _ | .jint _ | .jdec _ _ | .jstr _ => 0
  | .jarr xs => cellsArr xs + 1
  | .jobj kvs => cellsObj kvs + 1

def cellsArr : JArr → Nat
  | .nil => 0
  | .cons v tl => cellsJ v + cellsArr tl

def cellsObj : JObj → Nat
  | .nil => 0
  | .cons _ v tl => cellsJ v + cellsObj tl

end

mutual

theorem depthJ_le_cellsJ : ∀ v : JVal, depthJ v ≤ cellsJ v
  | .jnull => Nat.le_refl _
  | .jbool _ => Nat.le_refl _
  | .jint _ => Nat.le_refl _
  | .jdec _ _ => Nat.le_refl _
  | .jstr _ => Nat.le_refl _
  | .jarr xs => by
    have h := depthArr_le_cellsArr xs
    simp only [depthJ, cellsJ]
    omega
  | .jobj kvs => by
    have h := depthObj_le_cellsObj kvs
    simp only [depthJ, cellsJ]
    omega

theorem depthArr_le_cellsArr : ∀ xs : JArr, depthArr xs ≤ cellsArr xs
  | .nil => Nat.le_refl _
  | .cons v tl => by
    have h1 := depthJ_le_cellsJ v
    have h2 := depthArr_le_cellsArr tl
    simp only [depthArr, cellsArr]
    omega

theorem depthObj_le_cellsObj : ∀ kvs : JObj, depthObj kvs ≤ cellsObj kvs
  | .nil => Nat.le_refl _
  | .cons _ v tl => by
    have h1 := depthJ_le_cellsJ v
    have h2 := depthObj_le_cellsObj tl
    simp only [depthObj, cellsObj]
    omega

end

/-- The heap of `st2` extends the heap of `st1`: evaluation only ever appends
cells (`alloc`) or overwrites in place, and loading only appends. -/
def ExtendsC (st1 st2 : EState) : Prop := ∃ ext, st2.cells = st1.cells ++ ext

theorem extendsC_rfl (st : EState) : ExtendsC st st := ⟨[], by simp⟩

theorem extendsC_cells {st1 st2 : EState} (h : st2.cells = st1.cells) :
    ExtendsC st1 st2 := ⟨[], by simp [h]⟩

theorem extendsC_trans {a b c : EState} (h1 : ExtendsC a b) (h2 : ExtendsC b c) :
    ExtendsC a c := by
  obtain ⟨e1, h1⟩ := h1
  obtain ⟨e2, h2⟩ := h2
  exact ⟨e1 ++ e2, by rw [h2, h1, List.append_assoc]⟩

theorem getCell_mono {st1 st2 : EState} (h : ExtendsC st1 st2) {a : Nat} {c : Cell}
    (hc : getCell st1 a = some c) : getCell st2 a = some c := by
  obtain ⟨ext, he⟩ := h
  unfold getCell at hc ⊢
  rw [he]
  rcases List.getElem?_eq_some.mp hc with ⟨hlt, hv⟩
  rw [List.getElem?_append, if_pos hlt]
  exact hc

/-- The chunks that `joinComma` glues into a JSON array body. -/
def jarrPieces : JArr → List (List Char)
  | .nil => []
  | .cons v tl => jsonChars v :: jarrPieces tl

/-- The chunks that `joinComma` glues into a JSON object body. -/
def jobjPieces : JObj → List (List Char)
  | .nil => []
  | .cons k v tl =>
    (('"' :: (escJ k.data ++ ['"'])) ++ ':' :: ' ' :: jsonChars v) :: jobjPieces tl

theorem joinComma_jarrPieces : ∀ xs : JArr, joinComma (jarrPieces xs) = jsonCharsArr xs
  | .nil => rfl
  | .cons v tl => by
    cases tl with
    | nil => simp [jarrPieces, joinComma, jsonCharsArr]
    | cons w tl2 =>
      simp only [jarrPieces, jsonCharsArr]
      rw [show joinComma (jsonChars v :: jsonChars w :: jarrPieces tl2)
          = jsonChars v ++ ',' :: ' ' :: joinComma (jsonChars w :: jarrPieces tl2) from rfl]
      rw [show (jsonChars w :: jarrPieces tl2) = jarrPieces (.cons w tl2) from rfl]
      rw [joinComma_jarrPieces (.cons w tl2)]
      simp [jsonCharsArr]

theorem joinComma_jobjPieces : ∀ kvs : JObj, joinComma (jobjPieces kvs) = jsonCharsObj kvs
  | .nil => rfl
  | .cons k v tl => by
    cases tl with
    | nil => simp [jobjPieces, joinComma, jsonCharsObj]
    | cons k2 w tl2 =>
      simp only [jobjPieces, jsonCharsObj]
      rw [show joinComma ((('"' :: (escJ k.data ++ ['"'])) ++ ':' :: ' ' :: jsonChars v)
            :: (('"' :: (escJ k2.data ++ ['"'])) ++ ':' :: ' ' :: jsonChars w) :: jobjPieces tl2)
          = (('"' :: (escJ k.data ++ ['"'])) ++ ':' :: ' ' :: jsonChars v)
            ++ ',' :: ' ' :: joinComma ((('"' :: (escJ k2.data ++ ['"']))
              ++ ':' :: ' ' :: jsonChars w) :: jobjPieces tl2) from rfl]
      rw [show ((('"' :: (escJ k2.data ++ ['"'])) ++ ':' :: ' ' :: jsonChars w) :: jobjPieces tl2)
          = jobjPieces (.cons k2 w tl2) from rfl]
      rw [joinComma_jobjPieces (.cons k2 w tl2)]
      simp [jsonCharsObj]

mutual

/-- Loading a JSON value into the heap and then dumping it in to-JSON mode
reproduces its JSON encoding, in any later heap state that extends the
loaded one. -/
theorem loadJVal_dump : ∀ (v : JVal) (st : EState),
    (loadJVal v st).2.frames = st.frames ∧
    (loadJVal v st).2.cells.length = st.cells.length + cellsJ v ∧
    ExtendsC st (loadJVal v st).2 ∧
    (∀ stF f, ExtendsC (loadJVal v st).2 stF → depthJ v < f →
      dumpVal true f stF (loadJVal v st).1 = .ok (jsonChars v))
  | .jnull, st => by
    refine ⟨rfl, by simp [loadJVal, cellsJ], extendsC_rfl st, ?_⟩
    intro stF f hext hf
    cases f with
    | zero => omega
    | succ f => simp [loadJVal, dumpVal, jsonChars]
  | .jbool b, st => by
    refine ⟨rfl, by simp [loadJVal, cellsJ], extendsC_rfl st, ?_⟩
    intro stF f hext hf
    cases f with
    | zero => omega
    | succ f => cases b <;> simp [loadJVal, dumpVal, jsonChars]
  | .jint n, st => by
    refine ⟨rfl, by simp [loadJVal, cellsJ], extendsC_rfl st, ?_⟩
    intro stF f hext hf
    cases f with
    | zero => omega
    | succ f => simp [loadJVal, dumpVal, jsonChars]
  | .jdec m e, st => by
    refine ⟨rfl, by simp [loadJVal, cellsJ], extendsC_rfl st, ?_⟩
    intro stF f hext hf
    cases f with
    | zero => omega
    | succ f => simp [loadJVal, dumpVal, jsonChars]
  | .jstr str, st => by
    refine ⟨rfl, by simp [loadJVal, cellsJ], extendsC_rfl st, ?_⟩
    intro stF f hext hf
    cases f with
    | zero => omega
    | succ f => simp [loadJVal, dumpVal, jsonChars]
  | .jarr xs, st => by
    obtain ⟨hfr, hlen, hext, hdump⟩ := loadJArr_dump xs st
    rcases hL : loadJArr xs st with ⟨vs, st1⟩
    rw [hL] at hfr hlen hext hdump
    dsimp only at hfr hlen hext hdump
    have hload : loadJVal (.jarr xs) st
        = (.vref st1.cells.length, { st1 with cells := st1.cells ++ [.arrC vs] }) := by
      simp [loadJVal, hL, alloc]
    rw [hload]
    refine ⟨by simpa using hfr, ?_, ?_, ?_⟩
    · simp only [cellsJ]
      simp
      omega
    · exact extendsC_trans hext ⟨[.arrC vs], rfl⟩
    · intro stF f hextF hf
      cases f with
      | zero => omega
      | succ f =>
        have hf2 : depthArr xs < f := by
          simp only [depthJ] at hf
          omega
        have hcell : getCell stF st1.cells.length = some (.arrC vs) :=
          getCell_mono hextF (by simp [getCell, List.getElem?_concat_length])
        have hm := hdump stF f (extendsC_trans ⟨[.arrC vs], rfl⟩ hextF) hf2
        simp only [dumpVal, hcell]
        rw [hm]
        simp [joinComma_jarrPieces, jsonChars]
  | .jobj kvs, st => by
    obtain ⟨hfr, hlen, hext, hdump⟩ := loadJObj_dump kvs st
    rcases hL : loadJObj kvs st with ⟨pairs, st1⟩
    rw [hL] at hfr hlen hext hdump
    dsimp only at hfr hlen hext hdump
    have hload : loadJVal (.jobj kvs) st
        = (.vref st1.cells.length, { st1 with cells := st1.cells ++ [.objC pairs] }) := by
      simp [loadJVal, hL, alloc]
    rw [hload]
    refine ⟨by simpa using hfr, ?_, ?_, ?_⟩
    · simp only [cellsJ]
      simp
      omega
    · exact extendsC_trans hext ⟨[.objC pairs], rfl⟩
    · intro stF f hextF hf
      cases f with
      | zero => omega
      | succ f =>
        have hf2 : depthObj kvs < f := by
          simp only [depthJ] at hf
          omega
        have hcell : getCell stF st1.cells.length = some (.objC pairs) :=
          getCell_mono hextF (by simp [getCell, List.getElem?_concat_length])
        have hm := hdump stF f (extendsC_trans ⟨[.objC pairs], rfl⟩ hextF) hf2
        simp only [dumpVal, hcell]
        simp only [if_true]
        rw [hm]
        simp [joinComma_jobjPieces, jsonChars]

theorem loadJArr_dump : ∀ (xs : JArr) (st : EState),
    (loadJArr xs st).2.frames = st.frames ∧
    (loadJArr xs st).2.cells.length = st.cells.length + cellsArr xs ∧
    ExtendsC st (loadJArr xs st).2 ∧
    (∀ stF f, ExtendsC (loadJArr xs st).2 stF → depthArr xs < f →
      List.mapM (fun x => dumpVal true f stF x) (loadJArr xs st).1 = .ok (jarrPieces xs))
  | .nil, st => by
    refine ⟨rfl, by simp [loadJArr, cellsArr], extendsC_rfl st, ?_⟩
    intro stF f hext hf
    simp only [loadJArr]
    rfl
  | .cons v tl, st => by
    obtain ⟨hfr1, hlen1, hext1, hdump1⟩ := loadJVal_dump v st
    rcases hw : loadJVal v st with ⟨w, st1⟩
    rw [hw] at hfr1 hlen1 hext1 hdump1
    dsimp only at hfr1 hlen1 hext1 hdump1
    obtain ⟨hfr2, hlen2, hext2, hdump2⟩ := loadJArr_dump tl st1
    rcases hws : loadJArr tl st1 with ⟨ws, st2⟩
    rw [hws] at hfr2 hlen2 hext2 hdump2
    dsimp only at hfr2 hlen2 hext2 hdump2
    have hload : loadJArr (.cons v tl) st = (w :: ws, st2) := by
      simp [loadJArr, hw, hws]
    rw [hload]
    refine ⟨by rw [hfr2, hfr1], ?_, extendsC_trans hext1 hext2, ?_⟩
    · simp only [cellsArr]
      omega
    · intro stF f hextF hf
      simp only [depthArr] at hf
      simp only [List.mapM_cons]
      rw [hdump1 stF f (extendsC_trans hext2 hextF) (by omega)]
      rw [hdump2 stF f hextF (by omega)]
      simp only [jarrPieces]
      rfl

theorem loadJObj_dump : ∀ (kvs : JObj) (st : EState),
    (loadJObj kvs st).2.frames = st.frames ∧
    (loadJObj kvs st).2.cells.length = st.cells.length + cellsObj kvs ∧
    ExtendsC st (loadJObj kvs st).2 ∧
    (∀ stF f, ExtendsC (loadJObj kvs st).2 stF → depthObj kvs < f →
      List.mapM (fun kv => do
          let c ← dumpVal true f stF kv.2
          pure (('"' :: (escJ kv.1.data ++ ['"'])) ++ ':' :: ' ' :: c))
        (loadJObj kvs st).1 = .ok (jobjPieces kvs))
  | .nil, st => by
    refine ⟨rfl, by simp [loadJObj, cellsObj], extendsC_rfl st, ?_⟩
    intro stF f hext hf
    simp only [loadJObj]
    rfl
  | .cons k v tl, st => by
    obtain ⟨hfr1, hlen1, hext1, hdump1⟩ := loadJVal_dump v st
    rcases hw : loadJVal v st with ⟨w, st1⟩
    rw [hw] at hfr1 hlen1 hext1 hdump1
    dsimp only at hfr1 hlen1 hext1 hdump1
    obtain ⟨hfr2, hlen2, hext2, hdump2⟩ := loadJObj_dump tl st1
    rcases hws : loadJObj tl st1 with ⟨ws, st2⟩
    rw [hws] at hfr2 hlen2 hext2 hdump2
    dsimp only at hfr2 hlen2 hext2 hdump2
    have hload : loadJObj (.cons k v tl) st = ((k, w) :: ws, st2) := by
      simp [loadJObj, hw, hws]
    rw [hload]
    refine ⟨by rw [hfr2, hfr1], ?_, extendsC_trans hext1 hext2, ?_⟩
    · simp only [cellsObj]
      omega
    · intro stF f hextF hf
      simp only [depthObj] at hf
      simp only [List.mapM_cons]
      rw [hdump1 stF f (extendsC_trans hext2 hextF) (by omega)]
      rw [hdump2 stF f hextF (by omega)]
      simp only [jobjPieces]
      rfl

end

theorem okBind {ε α β : Type} (a : α) (g : α → Except ε β) :
    (Except.ok a : Except ε α) >>= g = g a := rfl

theorem pureIsOk {ε α : Type} (a : α) : (pure a : Except ε α) = Except.ok a := rfl

theorem okMap {ε α β : Type} (a : α) (g : α → β) :
    (Except.ok a : Except ε α).map g = .ok (g a) := rfl

theorem renderTemplate_tojson (v : JVal) :
    renderTemplate [.textS "", .outputS (.filterE (.varE "x") "tojson"), .textS ""]
      (.jobj (.cons "x" v .nil)) = .ok (tojsonJ v) := by
  obtain ⟨hfr, hlen, hext, hdump⟩ :=
    loadJVal_dump v ⟨[], [⟨[("range", .vbuiltin "range")], none⟩]⟩
  rcases hw : loadJVal v ⟨[], [⟨[("range", .vbuiltin "range")], none⟩]⟩ with ⟨w, stv⟩
  rw [hw] at hfr hlen hext hdump
  dsimp only at hfr hlen hext hdump
  simp only [List.length_nil, Nat.zero_add] at hlen
  have hstep : renderTemplate [.textS "", .outputS (.filterE (.varE "x") "tojson"), .textS ""]
      (.jobj (.cons "x" v .nil))
      = (match evalStmts renderFuel 1
            [.textS "", .outputS (.filterE (.varE "x") "tojson"), .textS ""]
            ⟨stv.cells, [⟨[("range", .vbuiltin "range")], none⟩, ⟨[("x", w)], some 0⟩]⟩ with
        | .ok (out, .normal, _) => .ok out
        | .ok (_, .brk, _) => .error ⟨.structuralK, "break outside of a loop"⟩
        | .ok (_, .cont, _) => .error ⟨.structuralK, "continue outside of a loop"⟩
        | .error e => .error e.val) := by
    simp only [renderTemplate, newFrame, List.nil_append, List.length_nil, loadJObj, hw]
    rw [hfr]
    rfl
  rw [hstep]
  have hfuel : renderFuel = 9994 + 1 + 1 + 1 + 1 + 1 + 1 := rfl
  rw [hfuel]
  set st3 : EState :=
    ⟨stv.cells, [⟨[("range", .vbuiltin "range")], none⟩, ⟨[("x", w)], some 0⟩]⟩ with hst3
  have hexpr : evalExpr (9994 + 1 + 1 + 1) 1 (.filterE (.varE "x") "tojson") st3
      = (dumpVal true (stv.cells.length + 1) st3 w).map fun cs => (.vstr ⟨cs⟩, st3) := rfl
  have hdmp : dumpVal true (stv.cells.length + 1) st3 w = .ok (jsonChars v) := by
    apply hdump
    · exact extendsC_cells rfl
    · rw [hlen]
      exact Nat.lt_succ_of_le (depthJ_le_cellsJ v)
  have hstmt : evalStmt (9994 + 1 + 1 + 1 + 1) 1
      (.outputS (.filterE (.varE "x") "tojson")) st3 = .ok (⟨jsonChars v⟩, .normal, st3) := by
    simp only [evalStmt]
    rw [hexpr, hdmp]
    rfl
  have htext : ∀ (g : Nat) (st : EState), evalStmt (g + 1) 1 (Stmt.textS "") st
      = .ok ("", .normal, st) := fun g st => rfl
  simp only [evalStmts, htext, hstmt, pureIsOk, okBind]
  simp only [String.append_empty, String.empty_append]
  rfl

/-! ### The claims -/

instance : DecidableEq (Except Err String) := fun a b =>
  match a, b with
  | .ok x, .ok y => decidable_of_iff (x = y) (by simp)
  | .ok _, .error _ => isFalse (by simp)
  | .error _, .ok _ => isFalse (by simp)
  | .error x, .error y => decidable_of_iff (x = y) (by simp)

/-- C1: for every JSON-decodable value bound as `x`, rendering the template
`\{\{ x | tojson \}\}` succeeds with exactly the JSON encoding of `x`, and decoding
that output yields a structure deeply equal to `x` (equality on the ordered
`JVal` model, so object key insertion order is preserved). -/
theorem C1_tojson_roundtrip (s : String) (v : JVal) (h : decodeJ s = some v) :
    renderString {} "{{ x | tojson }}" (.jobj (.cons "x" v .nil)) = .ok (tojsonJ v) ∧
    decodeJ (tojsonJ v) = some v := by
  constructor
  · have hp : parseTemplate {} "{{ x | tojson }}"
        = .ok [.textS "", .outputS (.filterE (.varE "x") "tojson"), .textS ""] := rfl
    simp only [renderString, hp, okBind]
    exact renderTemplate_tojson v
  · exact decodeJ_tojsonJ (decodeJ_wf h)

theorem C1_tojson_roundtrip_witness :
    decodeJ (tojsonJ (.jarr (.cons (.jint 1) (.cons (.jbool true) .nil))))
      = some (.jarr (.cons (.jint 1) (.cons (.jbool true) .nil))) ∧
    (renderString {} "{{ x | tojson }}"
        (.jobj (.cons "x" (.jarr (.cons (.jint 1) (.cons (.jbool true) .nil))) .nil))
      = .ok (tojsonJ (.jarr (.cons (.jint 1) (.cons (.jbool true) .nil)))) ∧
    decodeJ (tojsonJ (.jarr (.cons (.jint 1) (.cons (.jbool true) .nil))))
      = some (.jarr (.cons (.jint 1) (.cons (.jbool true) .nil)))) :=
  ⟨decodeJ_tojsonJ (by simp [wfJ, wfArr]),
   C1_tojson_roundtrip (tojsonJ (.jarr (.cons (.jint 1) (.cons (.jbool true) .nil)))) _
     (decodeJ_tojsonJ (by simp [wfJ, wfArr]))⟩

theorem setVar_cells (st : EState) (i : Nat) (name : String) (w : Val) :
    (setVar st i name w).cells = st.cells := by
  unfold setVar
  cases h : st.frames[i]? <;> rfl

/-- C2: rendering the shared-reference template yields `[1, 2, 3]`; in general
`set` from a variable rebinds the very same value — for a container a
reference to the same heap cell, no cell being copied (`setVar` leaves the
heap untouched) — so a mutation through either binding is visible through
the other. -/
theorem C2_alias_mutation :
    renderString {} "{% set a = [1,2] %}{% set b = a %}{% set _ = b.append(3) %}{{ a }}"
        (.jobj .nil) = .ok "[1, 2, 3]" ∧
    (∀ (f i : Nat) (st : EState) (name src : String) (w : Val),
      lookupVar (st.frames.length + 1) st i src = some w →
      evalStmt (f + 1 + 1) i (.setS name (.varE src)) st
        = .ok ("", .normal, setVar st i name w)) ∧
    (∀ (st : EState) (i : Nat) (name : String) (w : Val),
      (setVar st i name w).cells = st.cells) := by
  refine ⟨by decide, ?_, fun st i name w => setVar_cells st i name w⟩
  intro f i st name src w hlook
  simp only [evalStmt, evalExpr, hlook]
  rfl

theorem C2_alias_mutation_witness :
    lookupVar ((⟨[.arrC []], [⟨[("a", .vref 0)], none⟩]⟩ : EState).frames.length + 1)
        ⟨[.arrC []], [⟨[("a", .vref 0)], none⟩]⟩ 0 "a" = some (.vref 0) ∧
    evalStmt (0 + 1 + 1) 0 (.setS "b" (.varE "a")) ⟨[.arrC []], [⟨[("a", .vref 0)], none⟩]⟩
      = .ok ("", .normal, setVar ⟨[.arrC []], [⟨[("a", .vref 0)], none⟩]⟩ 0 "b" (.vref 0)) :=
  ⟨rfl, C2_alias_mutation.2.1 0 0 ⟨[.arrC []], [⟨[("a", .vref 0)], none⟩]⟩ "b" "a"
    (.vref 0) rfl⟩

set_option maxHeartbeats 2000000 in
/-- C3: a macro default container argument is freshly instantiated on every
call: the two calls both print `[1]`, the second showing no state leaked from
the first (the template is written with hex-escaped braces; it is exactly
`\x7b%- macro foo(values=[]) -%\x7d...`). -/
theorem C3_macro_default_fresh :
    renderString {} "\x7b%- macro foo(values=[]) -%\x7d\x7b%- set _ = values.append(1) -%\x7d\x7b\x7b- values -\x7d\x7d\x7b%- endmacro -%\x7d\x7b\x7b- foo() \x7d\x7d \x7b\x7b foo() -\x7d\x7d"
      (.jobj .nil) = .ok "[1] [1]" := by decide

/-- C4: `break` and `continue` at top level parse successfully; the failure is
raised at render time as a Structural error naming "break outside of a loop"
(resp. continue), and a compiled template can never produce a syntax-kind
error at render time (render-time errors are `RunErr`, which excludes
`syntaxK` by construction). -/
theorem C4_break_continue_render_time :
    (parseTemplate {} "{% break %}").toOption.isSome = true ∧
    (parseTemplate {} "{% continue %}").toOption.isSome = true ∧
    renderString {} "{% break %}" (.jobj .nil)
      = .error ⟨.structuralK, "break outside of a loop"⟩ ∧
    renderString {} "{% continue %}" (.jobj .nil)
      = .error ⟨.structuralK, "continue outside of a loop"⟩ ∧
    (∀ (ast : List Stmt) (b : JVal) (e : Err),
      renderTemplate ast b = .error e → e.kind ≠ ErrKind.syntaxK) := by
  refine ⟨by decide, by decide, by decide, by decide, ?_⟩
  intro ast b e h
  unfold renderTemplate at h
  split at h
  · rename_i kvs
    dsimp only [newFrame, List.length_nil, List.nil_append] at h
    rcases hL : loadJObj kvs ⟨[], [⟨[("range", .vbuiltin "range")], none⟩]⟩ with ⟨vars, st2⟩
    rw [hL] at h
    dsimp only at h
    split at h
    · exact absurd h (by simp)
    · simp only [Except.error.injEq] at h
      rw [← h]
      decide
    · simp only [Except.error.injEq] at h
      rw [← h]
      decide
    · rename_i e2 heq
      simp only [Except.error.injEq] at h
      rw [← h]
      exact e2.property
  · dsimp only [newFrame, List.length_nil, List.nil_append] at h
    split at h
    · exact absurd h (by simp)
    · simp only [Except.error.injEq] at h
      rw [← h]
      decide
    · simp only [Except.error.injEq] at h
      rw [← h]
      decide
    · rename_i e2 heq
      simp only [Except.error.injEq] at h
      rw [← h]
      exact e2.property

theorem C4_break_continue_witness :
    renderTemplate [.breakS] (.jobj .nil)
      = .error ⟨.structuralK, "break outside of a loop"⟩ ∧
    (⟨.structuralK, "break outside of a loop"⟩ : Err).kind ≠ ErrKind.syntaxK :=
  ⟨by decide, C4_break_continue_render_time.2.2.2.2 [.breakS] (.jobj .nil)
    ⟨.structuralK, "break outside of a loop"⟩ (by decide)⟩

/-- C5 (corrected): on the claimed template `"  \x7b% if True %\x7d\n    \x7b% endif %\x7d"`
the four option combinations actually render to six spaces, `"\n"`, `""` and
`"  \n    "` respectively; in particular `trim_blocks` alone yields six spaces,
not the eight the claim states, and the both-false output is not
`"\n        \n    "`. -/
theorem C5_whitespace_combinations :
    renderString ⟨true, false, true⟩ "  {% if True %}\n    {% endif %}" (.jobj .nil)
      = .ok "      " ∧
    renderString ⟨false, true, true⟩ "  {% if True %}\n    {% endif %}" (.jobj .nil)
      = .ok "\n" ∧
    renderString ⟨true, true, true⟩ "  {% if True %}\n    {% endif %}" (.jobj .nil)
      = .ok "" ∧
    renderString ⟨false, false, true⟩ "  {% if True %}\n    {% endif %}" (.jobj .nil)
      = .ok "  \n    " ∧
    renderString ⟨true, false, true⟩ "  {% if True %}\n    {% endif %}" (.jobj .nil)
      ≠ .ok "        " ∧
    renderString ⟨false, false, true⟩ "  {% if True %}\n    {% endif %}" (.jobj .nil)
      ≠ .ok "\n        \n    " := by
  exact ⟨by decide, by decide, by decide, by decide, by decide, by decide⟩

set_option maxHeartbeats 1000000 in
/-- C6: with a per-element loop filter, non-matching elements are skipped and
excluded from the loop record: over `range(5)` filtered to even values the
loop iterates exactly over 0, 2, 4 with loop length 3, `loop.index` takes
exactly 1, 2, 3, and `loop.first` / `loop.last` are each True exactly once. -/
theorem C6_loop_filter :
    renderString {} "{%- for i in range(5) if i % 2 == 0 -%}({{ i }}:{{ loop.index }}:{{ loop.length }}:{{ loop.first }}:{{ loop.last }}){%- endfor -%}"
        (.jobj .nil)
      = .ok "(0:1:3:True:False)(2:2:3:False:False)(4:3:3:False:True)" := by decide

/-- C7 (corrected): display and to-JSON stringification agree exactly on the
non-divergent values; they diverge for booleans and null as claimed, but also
for strings (and for arrays/objects containing any divergent value), so the
divergence is not exactly booleans-and-null: the string `"a"` is a
counterexample. -/
theorem C7_display_tojson :
    (∀ v : JVal, displayJ v = tojsonJ v ↔ divergentJ v = false) ∧
    divergentJ (.jbool true) = true ∧
    divergentJ .jnull = true ∧
    divergentJ (.jstr "a") = true ∧
    displayJ (.jstr "a") ≠ tojsonJ (.jstr "a") := by
  refine ⟨fun v => displayJ_eq_tojsonJ_iff v, by simp [divergentJ], by simp [divergentJ],
    by simp [divergentJ], ?_⟩
  intro h
  have hd : (displayJ (.jstr "a")).data = "a".data := rfl
  have ht : (tojsonJ (.jstr "a")).data = '"' :: (escJ "a".data ++ ['"']) := by
    simp [tojsonJ, jsonChars]
  rw [h, ht] at hd
  simp [escJ, escJChar] at hd

/-- C8: rendering is deterministic — a render call is a pure function of the
compiled template and the bindings, so two independent render calls with equal
bindings produce identical results; no state carries over between renders. -/
theorem C8_render_deterministic (ast : List Stmt) (b1 b2 : JVal) (h : b1 = b2) :
    renderTemplate ast b1 = renderTemplate ast b2 := by rw [h]

theorem C8_render_deterministic_witness :
    (JVal.jobj .nil) = (JVal.jobj .nil) ∧
    renderTemplate [.textS "hi"] (.jobj .nil) = renderTemplate [.textS "hi"] (.jobj .nil) :=
  ⟨rfl, C8_render_deterministic [.textS "hi"] (.jobj .nil) (.jobj .nil) rfl⟩

/-! ### chat-template.hpp: add_system and the apply message path -/

instance exceptDecEq {ε α : Type} [DecidableEq ε] [DecidableEq α] :
    DecidableEq (Except ε α) := fun a b =>
  match a, b with
  | .ok x, .ok y => decidable_of_iff (x = y) (by simp)
  | .ok _, .error _ => isFalse (by simp)
  | .error _, .ok _ => isFalse (by simp)
  | .error x, .error y => decidable_of_iff (x = y) (by simp)

/-- Lookup of an object key (first matching entry of the ordered object). -/
def jobjGet : JObj → String → Option JVal
  | .nil, _ => none
  | .cons k v tl, key => if k = key then some v else jobjGet tl key

/-- `nlohmann::ordered_json::at(key)`: the value at an object key; throws on a
missing key or a non-object. -/
def atKey (v : JVal) (k : String) : Except String JVal :=
  match v with
  | .jobj kvs =>
    match jobjGet kvs k with
    | some w => .ok w
    | none => .error ("key not found: " ++ k)
  | _ => .error "cannot use at with a non-object"

/-- Implicit `json` to `std::string` conversion; throws on a non-string. -/
def asStr (v : JVal) : Except String String :=
  match v with
  | .jstr s => .ok s
  | _ => .error "type must be string"

/-- The fresh two-field system message `add_system` builds. -/
def sysMsg (content : String) : JVal :=
  .jobj (.cons "role" (.jstr "system") (.cons "content" (.jstr content) .nil))

/-- `chat_template::add_system` (chat-template.hpp, lines 866-883): copy the
messages; if non-empty and the first message's role is "system", replace
element 0 by a fresh \x7brole, content\x7d object whose content is the existing
content, a blank line, and the prompt; otherwise insert a fresh system message
at the front. `at` lookups throw as in nlohmann. -/
def add_system (messages : List JVal) (system_prompt : String) :
    Except String (List JVal) :=
  match messages with
  | [] => .ok [sysMsg system_prompt]
  | first :: rest => do
    let role ← atKey first "role"
    if role = .jstr "system" then do
      let contentJ ← atKey first "content"
      let existing ← asStr contentJ
      return sysMsg (existing ++ "\n\n" ++ system_prompt) :: rest
    else
      return sysMsg system_prompt :: first :: rest

/-- C9 (corrected): `add_system` inserts a fresh system message at the front
when the input is empty or its first message's role is not "system"; when the
first message is a system message it does not merely replace that message's
content — it replaces the whole message by a fresh two-field object, dropping
every other field (witnessed by the "extra" field below); and it is not total:
a first message without a "role" key makes it throw instead of returning an
array. -/
theorem C9_add_system (p : String) :
    add_system [] p = .ok [sysMsg p] ∧
    (∀ (first : JVal) (rest : List JVal) (role : JVal),
      atKey first "role" = .ok role → role ≠ .jstr "system" →
      add_system (first :: rest) p = .ok (sysMsg p :: first :: rest)) ∧
    (∀ (first : JVal) (rest : List JVal) (c : String),
      atKey first "role" = .ok (.jstr "system") →
      atKey first "content" = .ok (.jstr c) →
      add_system (first :: rest) p = .ok (sysMsg (c ++ "\n\n" ++ p) :: rest)) ∧
    add_system [.jobj (.cons "role" (.jstr "system") (.cons "content" (.jstr "a")
        (.cons "extra" (.jint 7) .nil)))] "q"
      = .ok [sysMsg ("a" ++ "\n\n" ++ "q")] ∧
    add_system [.jobj (.cons "role" (.jstr "system") (.cons "content" (.jstr "a")
        (.cons "extra" (.jint 7) .nil)))] "q"
      ≠ .ok [.jobj (.cons "role" (.jstr "system") (.cons "content"
          (.jstr ("a" ++ "\n\n" ++ "q")) (.cons "extra" (.jint 7) .nil)))] ∧
    (∃ e, add_system [.jobj (.cons "foo" (.jint 1) .nil)] "q" = .error e) := by
  refine ⟨rfl, ?_, ?_, by decide, by decide, ⟨"key not found: role", by decide⟩⟩
  · intro first rest role hrole hne
    simp only [add_system, hrole, okBind]
    rw [if_neg hne]
    rfl
  · intro first rest c hrole hcontent
    simp only [add_system, hrole, hcontent, okBind]
    simp only [if_true]
    rfl

theorem C9_add_system_witness :
    atKey (.jobj (.cons "role" (.jstr "user") .nil)) "role" = .ok (.jstr "user") ∧
    (JVal.jstr "user") ≠ .jstr "system" ∧
    add_system [.jobj (.cons "role" (.jstr "user") .nil)] "p"
      = .ok (sysMsg "p" :: [.jobj (.cons "role" (.jstr "user") .nil)]) :=
  ⟨by decide, by decide,
   (C9_add_system "p").2.1 (.jobj (.cons "role" (.jstr "user") .nil)) []
     (.jstr "user") (by decide) (by decide)⟩

/-- `minja::ReasoningFormat` (chat-template.hpp, lines 32-41). -/
inductive ReasoningFormat where
  | NONE | REASONING_CONTENT_FIELD | THINKING_CONTENT_BLOCK | THOUGHTS_CONTENT_BLOCK
  | THOUGHT_FIELD | TOOL_PLAN_FIELD | THINKING_FIELD
deriving DecidableEq, Repr

/-- `minja::chat_template_caps` (chat-template.hpp, lines 42-72); every field
defaults to false / NONE. -/
structure chat_template_caps where
  supports_tools : Bool := false
  supports_tool_calls : Bool := false
  supports_tool_responses : Bool := false
  supports_system_role : Bool := false
  supports_parallel_tool_calls : Bool := false
  supports_tool_call_id : Bool := false
  requires_object_arguments : Bool := false
  requires_non_null_content : Bool := false
  requires_typed_content_blocks : Bool := false
  supports_reasoning : Bool := false
  reasoning_format : ReasoningFormat := .NONE
deriving Repr

/-- `minja::chat_template_options` (chat-template.hpp, lines 81-100); every
field defaults to true. -/
structure chat_template_options where
  apply_polyfills : Bool := true
  use_bos_token : Bool := true
  use_eos_token : Bool := true
  define_strftime_now : Bool := true
  polyfill_tools : Bool := true
  polyfill_tool_call_examples : Bool := true
  polyfill_tool_calls : Bool := true
  polyfill_tool_responses : Bool := true
  polyfill_system_role : Bool := true
  polyfill_object_arguments : Bool := true
  polyfill_typed_content : Bool := true
  polyfill_reasoning : Bool := true
deriving Repr

/-- `json::contains(key)` on a message. -/
def containsKey (m : JVal) (k : String) : Bool :=
  match m with
  | .jobj kvs => (jobjGet kvs k).isSome
  | _ => false

/-- Read a key of a message, null when absent (reads are guarded by
`containsKey` in the modelled code, as by `contains` in the source). -/
def getKeyD (m : JVal) (k : String) : JVal :=
  match m with
  | .jobj kvs => (jobjGet kvs k).getD .jnull
  | _ => .jnull

def isNullJ : JVal → Bool
  | .jnull => true
  | _ => false

def isStrJ : JVal → Bool
  | .jstr _ => true
  | _ => false

/-- `inputs.tools.is_array() && !inputs.tools.empty()`. -/
def hasTools : JVal → Bool
  | .jarr (.cons _ _) => true
  | _ => false

/-- The message scan of `chat_template::apply` (lines 606-620). -/
def has_tool_calls (msgs : List JVal) : Bool :=
  msgs.any fun m => containsKey m "tool_calls" && !(isNullJ (getKeyD m "tool_calls"))

def has_tool_responses (msgs : List JVal) : Bool :=
  msgs.any fun m => containsKey m "role" && decide (getKeyD m "role" = .jstr "tool")

def has_string_content (msgs : List JVal) : Bool :=
  msgs.any fun m => containsKey m "content" && isStrJ (getKeyD m "content")

def has_reasoning_content (msgs : List JVal) : Bool :=
  msgs.any fun m =>
    containsKey m "reasoning_content" && !(isNullJ (getKeyD m "reasoning_content"))

/-- `needs_polyfills` of `chat_template::apply` (lines 622-643): polyfills are
applied when enabled as a whole and at least one polyfill condition is
triggered by the inputs and the detected capabilities. -/
def needs_polyfills (caps : chat_template_caps) (opts : chat_template_options)
    (msgs : List JVal) (tools : JVal) : Bool :=
  opts.apply_polyfills &&
    ((opts.polyfill_system_role && !caps.supports_system_role) ||
     (opts.polyfill_tools && hasTools tools && !caps.supports_tools) ||
     (opts.polyfill_tool_calls && has_tool_calls msgs && !caps.supports_tool_calls) ||
     (opts.polyfill_tool_responses && has_tool_responses msgs
        && !caps.supports_tool_responses) ||
     (opts.polyfill_object_arguments && has_tool_calls msgs
        && caps.requires_object_arguments) ||
     (opts.polyfill_typed_content && has_string_content msgs
        && caps.requires_typed_content_blocks) ||
     (opts.polyfill_reasoning && has_reasoning_content msgs
        && !(decide (caps.reasoning_format = .NONE))
        && !(decide (caps.reasoning_format = .REASONING_CONTENT_FIELD))))

/-- The message shape test of the polyfill loop (line 691): a message must
have a role and one of content or tool_calls. -/
def msgShapeOk (m : JVal) : Bool :=
  containsKey m "role" && (containsKey m "content" || containsKey m "tool_calls")

/-- The per-message validation of the polyfill loop (lines 690-695),
parameterized by the JSON dump function used in the error text. -/
def checkMessages (dumpF : JVal → String) : List JVal → Except String Unit
  | [] => .ok ()
  | m :: rest =>
    if msgShapeOk m then checkMessages dumpF rest
    else .error ("message must have 'role' and one of 'content' or 'tool_calls' fields: "
      ++ dumpF m)

/-- The `actual_messages` computation of `chat_template::apply` (lines
600-831): on the polyfill path the messages (with a tool prompt merged in by
`add_system` when tools are polyfilled) are validated one by one and then
transformed; on the other path (lines 829-831) `inputs.messages` is passed
through untouched and unvalidated. The per-message transformations and the
tool prompt text do not affect which path is taken or the validation, and are
taken as parameters (`transformF`, `toolPrompt`), as is the JSON dump function
(`dumpF`). -/
def applyActualMessages (dumpF : JVal → String) (transformF : List JVal → List JVal)
    (caps : chat_template_caps) (opts : chat_template_options)
    (msgs : List JVal) (tools : JVal) (toolPrompt : String) :
    Except String (List JVal) :=
  if needs_polyfills caps opts msgs tools then do
    let adjusted ←
      if opts.polyfill_tools && hasTools tools && !caps.supports_tools then
        add_system msgs toolPrompt
      else .ok msgs
    let _ ← checkMessages dumpF adjusted
    .ok (transformF adjusted)
  else .ok msgs

/-- C10: `apply` validates message shape only on the polyfill path: when
`needs_polyfills` is false the input messages — even ones with no role,
content or tool_calls — are passed through unvalidated and unmodified; an
error can only arise when polyfills are enabled as a whole and some polyfill
condition triggered; and with default caps and options a shapeless message
makes the polyfill path throw the documented error, while the same message
passes through untouched once `apply_polyfills` is off. -/
theorem C10_validation_only_on_polyfill_path :
    (∀ dumpF transformF caps opts msgs tools toolPrompt,
      needs_polyfills caps opts msgs tools = false →
      applyActualMessages dumpF transformF caps opts msgs tools toolPrompt = .ok msgs) ∧
    (∀ dumpF transformF caps opts msgs tools toolPrompt e,
      applyActualMessages dumpF transformF caps opts msgs tools toolPrompt = .error e →
      needs_polyfills caps opts msgs tools = true ∧ opts.apply_polyfills = true) ∧
    (∀ dumpF transformF,
      applyActualMessages dumpF transformF {} {} [.jobj .nil] .jnull "tp"
        = .error ("message must have 'role' and one of 'content' or 'tool_calls' fields: "
            ++ dumpF (.jobj .nil))) ∧
    (∀ dumpF transformF,
      applyActualMessages dumpF transformF {} { apply_polyfills := false }
          [.jobj .nil] .jnull "tp"
        = .ok [.jobj .nil]) := by
  refine ⟨?_, ?_, fun dumpF transformF => rfl, fun dumpF transformF => rfl⟩
  · intro dumpF transformF caps opts msgs tools toolPrompt h
    unfold applyActualMessages
    rw [h]
    rfl
  · intro dumpF transformF caps opts msgs tools toolPrompt e h
    unfold applyActualMessages at h
    by_cases hn : needs_polyfills caps opts msgs tools = true
    · refine ⟨hn, ?_⟩
      have := hn
      unfold needs_polyfills at this
      exact (Bool.and_eq_true _ _ |>.mp this).1
    · rw [Bool.not_eq_true] at hn
      rw [hn] at h
      simp at h

theorem C10_validation_witness :
    needs_polyfills {} { apply_polyfills := false } [.jobj .nil] .jnull = false ∧
    applyActualMessages tojsonJ id {} { apply_polyfills := false } [.jobj .nil] .jnull "tp"
      = .ok [.jobj .nil] :=
  ⟨by decide,
   C10_validation_only_on_polyfill_path.1 tojsonJ id {} { apply_polyfills := false }
     [.jobj .nil] .jnull "tp" (by decide)⟩

/-- Counterexample to C5 as stated: with `trim_blocks` alone, the claimed
template renders to six spaces, not eight. -/
theorem C5_trim_counterexample :
    renderString ⟨true, false, true⟩ "  {% if True %}\n    {% endif %}" (.jobj .nil)
      ≠ .ok "        " := by decide

/-- Counterexample to C7 as stated: the string value `"a"` also has divergent
display and to-JSON stringifications, so the divergence is not exactly
booleans and null. -/
theorem C7_string_counterexample :
    displayJ (.jstr "a") ≠ tojsonJ (.jstr "a") ∧ divergentJ (.jstr "a") = true := by
  refine ⟨?_, by simp [divergentJ]⟩
  intro h
  have hd : (displayJ (.jstr "a")).data = "a".data := rfl
  have ht : (tojsonJ (.jstr "a")).data = '"' :: (escJ "a".data ++ ['"']) := by
    simp [tojsonJ, jsonChars]
  rw [h, ht] at hd
  simp [escJ, escJChar] at hd

/-- Counterexample to C9 as stated: a first system message with an extra field
is replaced by a fresh two-field message (the extra field is dropped, not
kept alongside the new content), and a message array whose first message has
no role makes `add_system` throw instead of returning an array. -/
theorem C9_replace_counterexample :
    add_system [.jobj (.cons "role" (.jstr "system") (.cons "content" (.jstr "a")
        (.cons "extra" (.jint 7) .nil)))] "q"
      = .ok [sysMsg ("a" ++ "\n\n" ++ "q")] ∧
    add_system [.jobj (.cons "role" (.jstr "system") (.cons "content" (.jstr "a")
        (.cons "extra" (.jint 7) .nil)))] "q"
      ≠ .ok [.jobj (.cons "role" (.jstr "system") (.cons "content"
          (.jstr ("a" ++ "\n\n" ++ "q")) (.cons "extra" (.jint 7) .nil)))] ∧
    add_system [.jobj (.cons "foo" (.jint 1) .nil)] "q"
      = .error "key not found: role" := by
  exact ⟨by decide, by decide, by decide⟩

end Spec2Proof
